import Mathlib

/-!
Verification of a solver-backed superoptimizer for 3-input boolean functions.

The program encodes straight-line programs over a 9-operation bitwise catalog
symbolically: each of `num_insns` instructions has free integer choice
variables (opcode, two operand register indices) and a free integer issue
cycle.  Operand and opcode selection are chains of conditionals defaulting to
index 0; constraints force each instruction's cycle above its operands' cycles
and non-decreasing in program order.  A model of the constraints is decoded
(clamping out-of-range values to 0) into a concrete program.

We embed the machine shallowly: a model is a list of concrete integer
assignments (`SymInsn`); the symbolic evaluator, the constraint set, the
decoder and the concrete simulator are executable Lean functions mirroring the
source, and the driver's lexicographic scan over (instruction count, cycle
bound) is characterised by the first satisfiable pair.
-/

/-- 8-bit bitwise complement (z3 `~` on `BitVec 8`); all register values stay
below 256. -/
def nnot (a : Nat) : Nat := a ^^^ 255

/-- Evaluation functions of the operation catalog `ops`, in source order:
set0, set1, not, and, or, xor, andnot, ornot, xornot. -/
def opsEval : List (Nat → Nat → Nat) :=
  [fun _ _ => 0x00,
   fun _ _ => 0xFF,
   fun a _ => nnot a,
   fun a b => a &&& b,
   fun a b => a ||| b,
   fun a b => a ^^^ b,
   fun a b => a &&& nnot b,
   fun a b => a ||| nnot b,
   fun a b => a ^^^ nnot b]

/-- Apply catalog entry `o` to operand values `a`, `b`. -/
def opApp (o a b : Nat) : Nat := (opsEval.getD o fun _ _ => 0) a b

/-- One solver model's values for one instruction: the three free choice
variables `i{i}_op`, `i{i}_r1`, `i{i}_r2` and the free cycle variable
`cycle_i`.  A full model is a `List SymInsn`. -/
structure SymInsn where
  opcode : Int
  r1 : Int
  r2 : Int
  cycle : Int
  deriving DecidableEq

/-- Default instruction used by `List.getD`. -/
def d0 : SymInsn := ⟨0, 0, 0, 0⟩

/-- The bit-sliced input registers `A = 0xF0, B = 0xCC, C = 0xAA`. -/
def initRegs : List Nat := [0xF0, 0xCC, 0xAA]

/-- Input registers carry cycle 0. -/
def initCycles : List Int := [0, 0, 0]

/-- The conditional-selection chain built by the source loops
`for j in range(s, s+n): acc = If(r == j, f j, acc)`:
matching index `j` selects `f j`, otherwise the initial accumulator stays. -/
def chainAux {α : Type} (f : Nat → α) (r : Int) : Nat → Nat → α → α
  | _, 0, acc => acc
  | s, n + 1, acc => chainAux f r (s + 1) n (if r = (s : Int) then f s else acc)

/-- Operand value resolution: chain over register indices `1 .. len-1`,
defaulting to register 0. -/
def chainSel (regs : List Nat) (r : Int) : Nat :=
  chainAux (fun j => regs.getD j 0) r 1 (regs.length - 1) (regs.getD 0 0)

/-- Operand cycle resolution: chain over temporary indices `3 .. len-1`,
defaulting to 0 (the inputs' cycle). -/
def cycChain (cycles : List Int) (r : Int) : Int :=
  chainAux (fun j => cycles.getD j 0) r 3 (cycles.length - 3) 0

/-- Opcode resolution: chain over catalog entries `1 .. 8`, defaulting to
entry 0 (`set0`). -/
def opChain (o : Int) (a b : Nat) : Nat :=
  chainAux (fun k => opApp k a b) o 1 8 (opApp 0 a b)

/-- Execute one instruction of a model on the (register file, cycle list)
state, appending the chain-resolved result and the instruction's cycle. -/
def step (st : List Nat × List Int) (ins : SymInsn) : List Nat × List Int :=
  (st.1 ++ [opChain ins.opcode (chainSel st.1 ins.r1) (chainSel st.1 ins.r2)],
   st.2 ++ [ins.cycle])

/-- The three ordering constraints emitted for one instruction:
`cycle > cin1`, `cycle > cin2`, `cycle >= previous cycle`. -/
def stepOk (st : List Nat × List Int) (ins : SymInsn) : Bool :=
  decide (cycChain st.2 ins.r1 < ins.cycle) &&
  decide (cycChain st.2 ins.r2 < ins.cycle) &&
  decide (st.2.getD (st.2.length - 1) 0 ≤ ins.cycle)

/-- All ordering constraints of `eval`, threaded through the growing state. -/
def constraintsOkFrom : List Nat × List Int → List SymInsn → Bool
  | _, [] => true
  | st, ins :: rest => stepOk st ins && constraintsOkFrom (step st ins) rest

/-- The full constraint set of `eval` holds for a model. -/
def constraintsOk (m : List SymInsn) : Bool :=
  constraintsOkFrom (initRegs, initCycles) m

/-- Run the symbolic evaluator on a model: final (registers, cycles). -/
def runSym (m : List SymInsn) : List Nat × List Int :=
  m.foldl step (initRegs, initCycles)

/-- The cycle list of a model as `eval` builds it. -/
def fullCycles (m : List SymInsn) : List Int :=
  initCycles ++ m.map (fun i => i.cycle)

/-- Value of the final register `regs[-1]`. -/
def finalVal (m : List SymInsn) : Nat := (runSym m).1.getLastD 0

/-- Cycle of the last instruction `cycles[-1]`. -/
def lastCycle (m : List SymInsn) : Int := (runSym m).2.getLastD 0

/-- The optional solve-time bound `cycles[-1] <= max_cycles`. -/
def boundOk (m : List SymInsn) : Option Int → Bool
  | none => true
  | some c => decide (lastCycle m ≤ c)

/-- `m` is a satisfying model of `solve (code := X, num_insns := n,
max_cycles := mc)`: right shape, all ordering constraints, goal equality,
and the cycle bound when given. -/
def SatModel (X : Nat) (n : Nat) (mc : Option Int) (m : List SymInsn) : Prop :=
  m.length = n ∧ constraintsOk m = true ∧ finalVal m = X ∧ boundOk m mc = true

/-- The solver call `solve (X, n, max_cycles := c)` is satisfiable. -/
def SatAt (X n c : Nat) : Prop := ∃ m, SatModel X n (some (c : Int)) m

/-- Decoder clamp for the opcode: out of `[0, 9)` falls back to 0. -/
def clampOp (o : Int) : Nat := if o < 0 ∨ 9 ≤ o then 0 else o.toNat

/-- Decoder clamp for a register index against bound `k`: out of `[0, k)`
falls back to 0. -/
def clampReg (r : Int) (k : Nat) : Nat :=
  if r < 0 ∨ (k : Int) ≤ r then 0 else r.toNat

/-- Decode a model into a concrete program, instruction `k` clamping its
register indices into `[0, 3 + k)`. -/
def decodeFrom : Nat → List SymInsn → List (Nat × Nat × Nat)
  | _, [] => []
  | k, ins :: rest =>
      (clampOp ins.opcode, clampReg ins.r1 (3 + k), clampReg ins.r2 (3 + k)) ::
        decodeFrom (k + 1) rest

/-- Decode a full model (clamping out-of-range opcode and register values). -/
def decode (m : List SymInsn) : List (Nat × Nat × Nat) := decodeFrom 0 m

/-- Concrete simulation of one decoded instruction `(opcode, r1, r2)`. -/
def simStep (regs : List Nat) (ins : Nat × Nat × Nat) : List Nat :=
  regs ++ [opApp ins.1 (regs.getD ins.2.1 0) (regs.getD ins.2.2 0)]

/-- Concrete simulation of a program from `A = 0xF0, B = 0xCC, C = 0xAA`. -/
def simulate (prog : List (Nat × Nat × Nat)) : List Nat :=
  prog.foldl simStep initRegs

/-- Final register after concretely simulating a program. -/
def simFinal (prog : List (Nat × Nat × Nat)) : Nat := (simulate prog).getLastD 0

/-- Well-formedness of a concrete program: instruction `k` has opcode below 9
and register indices below `3 + k`. -/
def progWFFrom : Nat → List (Nat × Nat × Nat) → Bool
  | _, [] => true
  | k, ins :: rest =>
      decide (ins.1 < 9) && decide (ins.2.1 < 3 + k) && decide (ins.2.2 < 3 + k) &&
        progWFFrom (k + 1) rest

/-- Well-formed concrete program over the catalog. -/
def progWF (prog : List (Nat × Nat × Nat)) : Bool := progWFFrom 0 prog

/-- Some well-formed `n`-instruction catalog program computes `X`. -/
def ComputesIn (X n : Nat) : Prop :=
  ∃ prog, prog.length = n ∧ progWF prog = true ∧ simFinal prog = X

/-- Package a concrete program and a cycle schedule as a model. -/
def toModel (prog : List (Nat × Nat × Nat)) (sched : List Int) : List SymInsn :=
  List.zipWith
    (fun (p : Nat × Nat × Nat) (c : Int) => ⟨(p.1 : Int), (p.2.1 : Int), (p.2.2 : Int), c⟩)
    prog sched

/-- The canonical fully sequential schedule `cycle_i = i + 1`. -/
def canonSched (n : Nat) : List Int :=
  (List.range n).map fun i : Nat => ((i : Int) + 1)

/-- Replace the cycle assignment of a model, keeping the choice variables. -/
def setCycles (m : List SymInsn) (cs : List Int) : List SymInsn :=
  List.zipWith (fun (i : SymInsn) (c : Int) => ⟨i.opcode, i.r1, i.r2, c⟩) m cs

/-- `(n, c)` is scanned strictly before `(N, C)` by the driver's double loop
`for num_insns = 1, 2, ...: for max_cycles = 1 .. num_insns`. -/
def ScanBefore (n c N C : Nat) : Prop :=
  1 ≤ c ∧ c ≤ n ∧ (n < N ∨ (n = N ∧ c < C))

/-- The driver's scan for `X` first succeeds at `(N, C)`: that pair is
satisfiable and every pair scanned before it is not.  This is the pair whose
model `solve_code` decodes and prints as the primary program. -/
def EmitsAt (X N C : Nat) : Prop :=
  1 ≤ C ∧ C ≤ N ∧ SatAt X N C ∧ ∀ n c, ScanBefore n c N C → ¬ SatAt X n c

/-- Bitmask (bit `v` set iff value `v` occurs) of all nine catalog results on
operand values `a`, `b`. -/
def maskOps (a b : Nat) : Nat :=
  (1 <<< (0 : Nat)) ||| (1 <<< (255 : Nat)) ||| (1 <<< nnot a) ||| (1 <<< (a &&& b)) |||
  (1 <<< (a ||| b)) ||| (1 <<< (a ^^^ b)) ||| (1 <<< (a &&& nnot b)) |||
  (1 <<< (a ||| nnot b)) ||| (1 <<< (a ^^^ nnot b))

/-- Bitmask of every one-instruction result over a register file. -/
def maskPairs (regs : List Nat) : Nat :=
  regs.foldl (fun acc a => regs.foldl (fun acc2 b => acc2 ||| maskOps a b) acc) 0

/-- Fold `f` over all bits `k < fuel` set in `src`, accumulating with `|||`. -/
def scanGo (src : Nat) (f : Nat → Nat) : Nat → Nat
  | 0 => 0
  | k + 1 => (if src.testBit k then f k else 0) ||| scanGo src f k

/-- Union of `f v` over all 8-bit values `v` whose bit is set in `src`. -/
def scan256 (src : Nat) (f : Nat → Nat) : Nat := scanGo src f 256

/-- Values reachable by the final register of a 1-instruction program. -/
def reach1Mask : Nat := maskPairs initRegs

/-- Values reachable by instruction 2 after the first produced `v1`. -/
def reach2MaskFrom (v1 : Nat) : Nat := maskPairs (initRegs ++ [v1])

/-- Values reachable by the final register of a 2-instruction program. -/
def reach2Total : Nat := scan256 reach1Mask reach2MaskFrom

/-- Values reachable by the final register of a 3-instruction program. -/
def reach3Total : Nat :=
  scan256 reach1Mask fun v1 =>
    scan256 (reach2MaskFrom v1) fun v2 => maskPairs (initRegs ++ [v1, v2])

/-- The selection chain picks `f r` when `r` lies in the scanned interval and
otherwise keeps the initial accumulator. -/
theorem chainAux_eq {α : Type} (f : Nat → α) (r : Int) :
    ∀ (n s : Nat) (acc : α),
      chainAux f r s n acc =
        if (s : Int) ≤ r ∧ r < (s : Int) + (n : Int) then f r.toNat else acc := by
  intro n
  induction n with
  | zero =>
      intro s acc
      have h : ¬ ((s : Int) ≤ r ∧ r < (s : Int) + ((0 : Nat) : Int)) := by
        push_cast
        omega
      rw [chainAux, if_neg h]
  | succ n ih =>
      intro s acc
      rw [chainAux, ih]
      push_cast
      split_ifs with h1 h2 h3 <;>
        first
          | rfl
          | (congr 1; omega)

/-- The register-index clamp always lands inside the register file. -/
theorem clampReg_lt (r : Int) (k : Nat) (hk : 0 < k) : clampReg r k < k := by
  unfold clampReg
  split_ifs with h
  · exact hk
  · omega

/-- The opcode clamp always lands inside the catalog. -/
theorem clampOp_lt (o : Int) : clampOp o < 9 := by
  unfold clampOp
  split_ifs with h
  · omega
  · omega

/-- The operand-value chain of `eval` selects exactly the register the decoder
clamp denotes: register `r` when `0 ≤ r < len`, register 0 otherwise. -/
theorem chainSel_eq (regs : List Nat) (r : Int) (hlen : 1 ≤ regs.length) :
    chainSel regs r = regs.getD (clampReg r regs.length) 0 := by
  rw [chainSel, chainAux_eq]
  have hc : ((1 : Nat) : Int) + ((regs.length - 1 : Nat) : Int) = (regs.length : Int) := by
    omega
  rw [hc]
  by_cases h : ((1 : Nat) : Int) ≤ r ∧ r < (regs.length : Int)
  · rw [if_pos h]
    have : clampReg r regs.length = r.toNat := by
      unfold clampReg
      rw [if_neg]
      omega
    rw [this]
  · rw [if_neg h]
    have : clampReg r regs.length = 0 := by
      unfold clampReg
      split_ifs with hsp
      · rfl
      · omega
    rw [this]

/-- The opcode chain of `eval` computes exactly the catalog entry the decoder
clamp denotes: entry `o` when `0 ≤ o < 9`, entry 0 (`set0`) otherwise. -/
theorem opChain_eq (o : Int) (a b : Nat) : opChain o a b = opApp (clampOp o) a b := by
  rw [opChain, chainAux_eq]
  by_cases h : ((1 : Nat) : Int) ≤ o ∧ o < ((1 : Nat) : Int) + ((8 : Nat) : Int)
  · rw [if_pos h]
    have : clampOp o = o.toNat := by
      unfold clampOp
      rw [if_neg]
      omega
    rw [this]
  · rw [if_neg h]
    have : clampOp o = 0 := by
      unfold clampOp
      split_ifs with hsp
      · rfl
      · omega
    rw [this]

/-- The operand-cycle chain of `eval` yields the cycle of the clamp-resolved
register, the three inputs counting as cycle 0. -/
theorem cycChain_eq (cycles : List Int) (r : Int) (hlen : 3 ≤ cycles.length)
    (g0 : cycles.getD 0 0 = 0) (g1 : cycles.getD 1 0 = 0) (g2 : cycles.getD 2 0 = 0) :
    cycChain cycles r = cycles.getD (clampReg r cycles.length) 0 := by
  rw [cycChain, chainAux_eq]
  have hc : ((3 : Nat) : Int) + ((cycles.length - 3 : Nat) : Int) = (cycles.length : Int) := by
    omega
  rw [hc]
  by_cases h : ((3 : Nat) : Int) ≤ r ∧ r < (cycles.length : Int)
  · rw [if_pos h]
    have : clampReg r cycles.length = r.toNat := by
      unfold clampReg
      rw [if_neg]
      omega
    rw [this]
  · rw [if_neg h]
    by_cases hout : r < 0 ∨ (cycles.length : Int) ≤ r
    · have : clampReg r cycles.length = 0 := by
        unfold clampReg
        rw [if_pos hout]
      rw [this, g0]
    · have h012 : r = 0 ∨ r = 1 ∨ r = 2 := by omega
      have : clampReg r cycles.length = r.toNat := by
        unfold clampReg
        rw [if_neg hout]
      rw [this]
      rcases h012 with h0 | h1 | h2
      · rw [h0]
        exact g0.symm
      · rw [h1]
        exact g1.symm
      · rw [h2]
        exact g2.symm

/-- Folding `step` only appends cycle values in order. -/
theorem runFrom_cycles (m : List SymInsn) :
    ∀ st : List Nat × List Int,
      (List.foldl step st m).2 = st.2 ++ m.map (fun i => i.cycle) := by
  induction m with
  | nil =>
      intro st
      simp
  | cons ins rest ih =>
      intro st
      rw [List.foldl_cons, ih, List.map_cons]
      show (st.2 ++ [ins.cycle]) ++ rest.map (fun i => i.cycle) = _
      rw [List.append_assoc]
      rfl

/-- The cycle list of a run is the inputs' zeros followed by the models'
cycle values. -/
theorem runSym_cycles (m : List SymInsn) : (runSym m).2 = fullCycles m :=
  runFrom_cycles m (initRegs, initCycles)

/-- Folding `step` grows the register file by one register per instruction. -/
theorem runFrom_regs_len (m : List SymInsn) :
    ∀ st : List Nat × List Int,
      (List.foldl step st m).1.length = st.1.length + m.length := by
  induction m with
  | nil =>
      intro st
      simp
  | cons ins rest ih =>
      intro st
      rw [List.foldl_cons, ih]
      show (st.1 ++ [_]).length + rest.length = _
      simp
      omega

/-- The symbolic register file has `3 + n` registers. -/
theorem runSym_regs_len (m : List SymInsn) : (runSym m).1.length = 3 + m.length := by
  rw [runSym, runFrom_regs_len]
  rfl

/-- Folding `step` preserves the initial registers as a prefix. -/
theorem runFrom_regs_ext (m : List SymInsn) :
    ∀ st : List Nat × List Int, ∃ t, (List.foldl step st m).1 = st.1 ++ t := by
  induction m with
  | nil =>
      intro st
      exact ⟨[], by simp⟩
  | cons ins rest ih =>
      intro st
      obtain ⟨t, ht⟩ := ih (step st ins)
      refine ⟨[opChain ins.opcode (chainSel st.1 ins.r1) (chainSel st.1 ins.r2)] ++ t, ?_⟩
      rw [List.foldl_cons, ht]
      show (st.1 ++ [opChain ins.opcode (chainSel st.1 ins.r1) (chainSel st.1 ins.r2)]) ++ t = _
      rw [List.append_assoc]

/-- The register part of a run never depends on the cycle assignment. -/
theorem runFrom_regs_cyc_indep (m : List SymInsn) :
    ∀ (regs : List Nat) (c1 c2 : List Int),
      (List.foldl step (regs, c1) m).1 = (List.foldl step (regs, c2) m).1 := by
  induction m with
  | nil =>
      intro regs c1 c2
      rfl
  | cons ins rest ih =>
      intro regs c1 c2
      exact ih _ _ _

/-- Indexing the mapped cycle list, with `d0`'s cycle as matching default. -/
theorem getD_map_cycle (m : List SymInsn) :
    ∀ j : Nat, (m.map (fun i => i.cycle)).getD j 0 = (m.getD j d0).cycle := by
  induction m with
  | nil =>
      intro j
      rfl
  | cons ins rest ih =>
      intro j
      cases j with
      | zero => rfl
      | succ j => exact ih j

/-- Cycle of temporary `j` in the full cycle list. -/
theorem fullCycles_getD3 (m : List SymInsn) (j : Nat) :
    (fullCycles m).getD (3 + j) 0 = (m.getD j d0).cycle := by
  have h : (3 + j) = ((j + 2) + 1) := by omega
  rw [fullCycles, h]
  show (List.getD (0 :: 0 :: 0 :: m.map (fun i => i.cycle)) ((j + 2) + 1) 0) = _
  rw [List.getD_cons_succ]
  show (List.getD (0 :: 0 :: m.map (fun i => i.cycle)) ((j + 1) + 1) 0) = _
  rw [List.getD_cons_succ]
  show (List.getD (0 :: m.map (fun i => i.cycle)) (j + 1) 0) = _
  rw [List.getD_cons_succ]
  exact getD_map_cycle m j

/-- The inputs' entries of the full cycle list are zero. -/
theorem fullCycles_getD_lt3 (m : List SymInsn) (k : Nat) (hk : k < 3) :
    (fullCycles m).getD k 0 = 0 := by
  have h : k = 0 ∨ k = 1 ∨ k = 2 := by omega
  rcases h with h | h | h <;> rw [h] <;> rfl

/-- `getD` of a one-element extension at the old length. -/
theorem getD_concat_len {α : Type} (l : List α) (a d : α) :
    (l ++ [a]).getD l.length d = a := by
  induction l with
  | nil => rfl
  | cons x xs ih => exact ih

/-- Last element of a one-element extension. -/
theorem getLastD_concat2 {α : Type} (l : List α) (a : α) :
    ∀ d : α, (l ++ [a]).getLastD d = a := by
  induction l with
  | nil =>
      intro d
      rfl
  | cons x xs ih =>
      intro d
      rw [List.cons_append, List.getLastD_cons]
      exact ih x

/-- The three constraints of instruction `i`, phrased over the final cycle
list via the decoder's clamps: the cycle exceeds both clamp-resolved operand
cycles (`cyc`-prefix entries and inputs counting as given), and is at least
the previous register's cycle. -/
def okAtGen (cyc : List Int) (m : List SymInsn) (i : Nat) : Prop :=
  (cyc ++ m.map (fun x => x.cycle)).getD
      (clampReg (m.getD i d0).r1 (cyc.length + i)) 0 < (m.getD i d0).cycle ∧
  (cyc ++ m.map (fun x => x.cycle)).getD
      (clampReg (m.getD i d0).r2 (cyc.length + i)) 0 < (m.getD i d0).cycle ∧
  (cyc ++ m.map (fun x => x.cycle)).getD (cyc.length + i - 1) 0 ≤ (m.getD i d0).cycle

/-- Shifting `okAtGen` across one executed instruction. -/
theorem okAtGen_shift (cyc : List Int) (ins : SymInsn) (rest : List SymInsn) (i : Nat) :
    okAtGen (cyc ++ [ins.cycle]) rest i ↔ okAtGen cyc (ins :: rest) (i + 1) := by
  unfold okAtGen
  have hfc : (cyc ++ [ins.cycle]) ++ rest.map (fun x => x.cycle) =
      cyc ++ (ins :: rest).map (fun x => x.cycle) := by
    rw [List.append_assoc]
    rfl
  have hlen : (cyc ++ [ins.cycle]).length + i = cyc.length + (i + 1) := by
    simp
    omega
  have hins : (ins :: rest).getD (i + 1) d0 = rest.getD i d0 := rfl
  rw [hfc, hlen, hins]

/-- The constraint list produced by `eval`'s loop holds iff every
instruction satisfies its three indexed ordering conditions. -/
theorem constraintsOkFrom_iff (m : List SymInsn) :
    ∀ st : List Nat × List Int, 3 ≤ st.2.length →
      st.2.getD 0 0 = 0 → st.2.getD 1 0 = 0 → st.2.getD 2 0 = 0 →
      (constraintsOkFrom st m = true ↔ ∀ i, i < m.length → okAtGen st.2 m i) := by
  induction m with
  | nil =>
      intro st h3 g0 g1 g2
      constructor
      · intro _ i hi
        exact absurd hi (Nat.not_lt_zero i)
      · intro _
        rfl
  | cons ins rest ih =>
      intro st h3 g0 g1 g2
      have hlen0 : 0 < st.2.length := by omega
      have hclamp1 : clampReg ins.r1 st.2.length < st.2.length := clampReg_lt _ _ hlen0
      have hclamp2 : clampReg ins.r2 st.2.length < st.2.length := clampReg_lt _ _ hlen0
      have hprev : st.2.length - 1 < st.2.length := by omega
      have hstep : stepOk st ins = true ↔ okAtGen st.2 (ins :: rest) 0 := by
        unfold stepOk okAtGen
        rw [Bool.and_eq_true, Bool.and_eq_true]
        rw [decide_eq_true_eq, decide_eq_true_eq, decide_eq_true_eq]
        have e1 : cycChain st.2 ins.r1 = st.2.getD (clampReg ins.r1 st.2.length) 0 :=
          cycChain_eq st.2 ins.r1 h3 g0 g1 g2
        have e2 : cycChain st.2 ins.r2 = st.2.getD (clampReg ins.r2 st.2.length) 0 :=
          cycChain_eq st.2 ins.r2 h3 g0 g1 g2
        have f1 := List.getD_append st.2 ((ins :: rest).map (fun x => x.cycle)) 0
          (clampReg ins.r1 st.2.length) hclamp1
        have f2 := List.getD_append st.2 ((ins :: rest).map (fun x => x.cycle)) 0
          (clampReg ins.r2 st.2.length) hclamp2
        have f3 := List.getD_append st.2 ((ins :: rest).map (fun x => x.cycle)) 0
          (st.2.length - 1) hprev
        simp only [List.getD_cons_zero, Nat.add_zero]
        rw [f1, f2, f3, e1, e2]
        constructor
        · intro h
          exact ⟨h.1.1, h.1.2, h.2⟩
        · intro h
          exact ⟨⟨h.1, h.2.1⟩, h.2.2⟩
      have hpres : (step st ins).2 = st.2 ++ [ins.cycle] := rfl
      have hg : ∀ k : Nat, k < 3 → (st.2 ++ [ins.cycle]).getD k 0 = st.2.getD k 0 := by
        intro k hk
        rw [List.getD_append]
        omega
      have hrest : constraintsOkFrom (step st ins) rest = true ↔
          ∀ i, i < rest.length → okAtGen (st.2 ++ [ins.cycle]) rest i := by
        have := ih (step st ins) (by rw [hpres]; simp; omega)
          (by rw [hpres, hg 0 (by omega)]; exact g0)
          (by rw [hpres, hg 1 (by omega)]; exact g1)
          (by rw [hpres, hg 2 (by omega)]; exact g2)
        rw [hpres] at this
        exact this
      rw [constraintsOkFrom, Bool.and_eq_true, hstep, hrest]
      constructor
      · intro h i hi
        cases i with
        | zero => exact h.1
        | succ i =>
            have hlt : i < rest.length := by
              simp at hi
              omega
            exact (okAtGen_shift st.2 ins rest i).mp (h.2 i hlt)
      · intro h
        constructor
        · exact h 0 (by simp)
        · intro i hi
          exact (okAtGen_shift st.2 ins rest i).mpr (h (i + 1) (by simp; omega))

/-- The full constraint set holds iff every instruction's indexed ordering
conditions hold over the full cycle list. -/
theorem constraintsOk_iff (m : List SymInsn) :
    constraintsOk m = true ↔ ∀ i, i < m.length → okAtGen initCycles m i := by
  have h := constraintsOkFrom_iff m (initRegs, initCycles) (by rfl) rfl rfl rfl
  exact h

/-- Clamping is the identity on an in-range opcode. -/
theorem clampOp_cast (o : Nat) (h : o < 9) : clampOp ((o : Nat) : Int) = o := by
  unfold clampOp
  rw [if_neg]
  · exact Int.toNat_natCast o
  · omega

/-- Clamping is the identity on an in-range register index. -/
theorem clampReg_cast (r k : Nat) (h : r < k) : clampReg ((r : Nat) : Int) k = r := by
  unfold clampReg
  rw [if_neg]
  · exact Int.toNat_natCast r
  · omega

/-- Simulating the decoded program replays the symbolic evaluation exactly:
the conditional chains' defaults coincide with the decoder's clamps. -/
theorem simFrom_eq_runFrom (m : List SymInsn) :
    ∀ (regs : List Nat) (cyc : List Int) (k : Nat), regs.length = 3 + k →
      List.foldl simStep regs (decodeFrom k m) = (List.foldl step (regs, cyc) m).1 := by
  induction m with
  | nil =>
      intro regs cyc k hk
      rfl
  | cons ins rest ih =>
      intro regs cyc k hk
      rw [decodeFrom, List.foldl_cons, List.foldl_cons]
      have hlen1 : 1 ≤ regs.length := by omega
      have hsel1 : chainSel regs ins.r1 = regs.getD (clampReg ins.r1 (3 + k)) 0 := by
        rw [chainSel_eq regs ins.r1 hlen1, hk]
      have hsel2 : chainSel regs ins.r2 = regs.getD (clampReg ins.r2 (3 + k)) 0 := by
        rw [chainSel_eq regs ins.r2 hlen1, hk]
      have hhd : simStep regs (clampOp ins.opcode, clampReg ins.r1 (3 + k), clampReg ins.r2 (3 + k)) =
          (step (regs, cyc) ins).1 := by
        show regs ++ [_] = regs ++ [_]
        rw [opChain_eq, hsel1, hsel2]
      rw [hhd]
      have hk2 : (step (regs, cyc) ins).1.length = 3 + (k + 1) := by
        show (regs ++ [_]).length = 3 + (k + 1)
        simp
        omega
      have := ih (step (regs, cyc) ins).1 (step (regs, cyc) ins).2 (k + 1) hk2
      rw [this]

/-- Simulating the decoded model yields the symbolic register file. -/
theorem sim_decode_eq (m : List SymInsn) : simulate (decode m) = (runSym m).1 :=
  simFrom_eq_runFrom m initRegs initCycles 0 rfl

/-- Decoding preserves the instruction count. -/
theorem decodeFrom_len (m : List SymInsn) : ∀ k : Nat, (decodeFrom k m).length = m.length := by
  induction m with
  | nil =>
      intro k
      rfl
  | cons ins rest ih =>
      intro k
      show (decodeFrom (k + 1) rest).length + 1 = rest.length + 1
      rw [ih]

/-- A decoded program is always well formed: clamps land in range. -/
theorem progWF_decodeFrom (m : List SymInsn) :
    ∀ k : Nat, progWFFrom k (decodeFrom k m) = true := by
  induction m with
  | nil =>
      intro k
      rfl
  | cons ins rest ih =>
      intro k
      show (_ && _ && _ && progWFFrom (k + 1) (decodeFrom (k + 1) rest)) = true
      rw [ih]
      simp only [Bool.and_true, Bool.and_eq_true, decide_eq_true_eq]
      exact ⟨⟨clampOp_lt ins.opcode, clampReg_lt ins.r1 (3 + k) (by omega)⟩,
        clampReg_lt ins.r2 (3 + k) (by omega)⟩

/-- Decoding a packaged well-formed program gives the program back. -/
theorem decodeFrom_toModel (prog : List (Nat × Nat × Nat)) :
    ∀ (sched : List Int) (k : Nat), progWFFrom k prog = true → sched.length = prog.length →
      decodeFrom k (toModel prog sched) = prog := by
  induction prog with
  | nil =>
      intro sched k hwf hlen
      cases sched with
      | nil => rfl
      | cons c cs => simp at hlen
  | cons p ps ih =>
      intro sched k hwf hlen
      cases sched with
      | nil => simp at hlen
      | cons c cs =>
          have hwf2 : progWFFrom (k + 1) ps = true := by
            rw [progWFFrom, Bool.and_eq_true] at hwf
            exact hwf.2
          have hb : p.1 < 9 ∧ p.2.1 < 3 + k ∧ p.2.2 < 3 + k := by
            rw [progWFFrom, Bool.and_eq_true, Bool.and_eq_true, Bool.and_eq_true] at hwf
            exact ⟨by simpa using hwf.1.1.1, by simpa using hwf.1.1.2, by simpa using hwf.1.2⟩
          show (clampOp ((p.1 : Nat) : Int), clampReg ((p.2.1 : Nat) : Int) (3 + k),
              clampReg ((p.2.2 : Nat) : Int) (3 + k)) :: decodeFrom (k + 1) (toModel ps cs) = p :: ps
          rw [clampOp_cast p.1 hb.1, clampReg_cast p.2.1 (3 + k) hb.2.1,
            clampReg_cast p.2.2 (3 + k) hb.2.2, ih cs (k + 1) hwf2 (by simpa using hlen)]

/-- Packaging keeps the instruction count when the schedule matches. -/
theorem toModel_len (prog : List (Nat × Nat × Nat)) (sched : List Int)
    (h : sched.length = prog.length) : (toModel prog sched).length = prog.length := by
  rw [toModel, List.length_zipWith, h]
  omega

/-- The last cycle of a model ending in `ins` is `ins`'s cycle. -/
theorem lastCycle_concat (l : List SymInsn) (ins : SymInsn) :
    lastCycle (l ++ [ins]) = ins.cycle := by
  rw [lastCycle, runSym_cycles]
  show (initCycles ++ (l ++ [ins]).map (fun x => x.cycle)).getLastD 0 = ins.cycle
  rw [List.map_append]
  show (initCycles ++ ((l.map (fun x => x.cycle)) ++ [ins.cycle])).getLastD 0 = ins.cycle
  rw [← List.append_assoc]
  exact getLastD_concat2 _ _ 0

/-- Every instruction of a constrained model issues at cycle 1 or later. -/
theorem cycles_ge_one (m : List SymInsn) (h : constraintsOk m = true) :
    ∀ i, i < m.length → 1 ≤ (m.getD i d0).cycle := by
  have hok := (constraintsOk_iff m).mp h
  intro i
  induction i using Nat.strong_induction_on with
  | _ i ihs =>
      intro hi
      have hcl : clampReg (m.getD i d0).r1 (initCycles.length + i) < 3 + i :=
        clampReg_lt _ _ (by change 0 < 3 + i; omega)
      obtain ⟨h1, _, h3⟩ := hok i hi
      cases i with
      | zero =>
          have hz : (initCycles ++ m.map (fun x => x.cycle)).getD
              (clampReg (m.getD 0 d0).r1 (initCycles.length + 0)) 0 = 0 := by
            apply fullCycles_getD_lt3
            simpa using hcl
          rw [hz] at h1
          omega
      | succ i =>
          have hprev : (initCycles ++ m.map (fun x => x.cycle)).getD
              (initCycles.length + (i + 1) - 1) 0 = (m.getD i d0).cycle := by
            show (fullCycles m).getD (initCycles.length + (i + 1) - 1) 0 = _
            have he : initCycles.length + (i + 1) - 1 = 3 + i := by
              show 3 + (i + 1) - 1 = 3 + i
              omega
            rw [he]
            exact fullCycles_getD3 m i
          rw [hprev] at h3
          have := ihs i (by omega) (by omega)
          omega

/-- The last instruction's cycle of a nonempty constrained model is at
least 1. -/
theorem lastCycle_ge_one (m : List SymInsn) (hne : 1 ≤ m.length)
    (h : constraintsOk m = true) : 1 ≤ lastCycle m := by
  rcases List.eq_nil_or_concat m with hnil | ⟨l, ins, hcat⟩
  · rw [hnil] at hne
    simp at hne
  · rw [List.concat_eq_append] at hcat
    have hlast : lastCycle m = ins.cycle := by
      rw [hcat]
      exact lastCycle_concat l ins
    have hidx : m.getD (m.length - 1) d0 = ins := by
      rw [hcat]
      have : (l ++ [ins]).length - 1 = l.length := by
        simp
      rw [this]
      exact getD_concat_len l ins d0
    have := cycles_ge_one m h (m.length - 1) (by omega)
    rw [hidx] at this
    rw [hlast]
    exact this

/-- Final value of a model equals the simulated final value of its decoding. -/
theorem simFinal_decode (m : List SymInsn) : simFinal (decode m) = finalVal m := by
  rw [simFinal, sim_decode_eq]
  rfl

/-- A satisfiable solver query yields a well-formed concrete program: the
decoded model computes the target. -/
theorem computes_of_sat (X n : Nat) (mc : Option Int) (m : List SymInsn)
    (h : SatModel X n mc m) : ComputesIn X n := by
  refine ⟨decode m, ?_, progWF_decodeFrom m 0, ?_⟩
  · rw [decode, decodeFrom_len]
    exact h.1
  · rw [simFinal_decode]
    exact h.2.2.1

/-- Entries of the canonical schedule. -/
theorem getD_map_range {α : Type} (f : Nat → α) (d : α) :
    ∀ n j : Nat, j < n → ((List.range n).map f).getD j d = f j := by
  intro n
  induction n with
  | zero =>
      intro j hj
      exact absurd hj (Nat.not_lt_zero j)
  | succ n ih =>
      intro j hj
      rw [List.range_succ, List.map_append]
      rcases Nat.lt_or_ge j n with hlt | hge
      · rw [List.getD_append]
        · exact ih j hlt
        · simpa using hlt
      · have hj2 : j = n := by omega
        subst hj2
        have e1 : List.map f [j] = [f j] := rfl
        rw [e1]
        have hl : ((List.range j).map f).length = j := by simp
        have hc := getD_concat_len ((List.range j).map f) (f j) d
        rw [hl] at hc
        exact hc

/-- The canonical schedule issues instruction `j` at cycle `j + 1`. -/
theorem canonSched_getD (n j : Nat) (h : j < n) :
    (canonSched n).getD j 0 = (j : Int) + 1 := by
  rw [canonSched]
  exact getD_map_range (fun i => ((i : Int) + 1)) 0 n j h

/-- The canonical schedule has one cycle entry per instruction. -/
theorem canonSched_len (n : Nat) : (canonSched n).length = n := by
  rw [canonSched, List.length_map, List.length_range]

/-- The canonical schedule grows by one final cycle entry. -/
theorem canonSched_concat (k : Nat) :
    canonSched (k + 1) = canonSched k ++ [(k : Int) + 1] := by
  rw [canonSched, canonSched, List.range_succ, List.map_append]
  rfl

/-- Inputs' entries of an extended initial cycle list are zero. -/
theorem getD_init3 (l : List Int) (k : Nat) (hk : k < 3) :
    (initCycles ++ l).getD k 0 = 0 := by
  have h : k = 0 ∨ k = 1 ∨ k = 2 := by omega
  rcases h with h | h | h <;> rw [h] <;> rfl

/-- Temporary `j`'s entry of an extended initial cycle list. -/
theorem getD_init3_succ (l : List Int) (j : Nat) :
    (initCycles ++ l).getD (3 + j) 0 = l.getD j 0 := by
  have h : (3 + j) = ((j + 2) + 1) := by omega
  rw [h]
  show List.getD (0 :: 0 :: 0 :: l) ((j + 2) + 1) 0 = l.getD j 0
  rw [List.getD_cons_succ]
  show List.getD (0 :: 0 :: l) ((j + 1) + 1) 0 = l.getD j 0
  rw [List.getD_cons_succ]
  exact List.getD_cons_succ

/-- A model scheduled canonically (`cycle_i = i + 1`) satisfies every
ordering constraint: operands are older registers, and cycles increase. -/
theorem constraintsOk_of_canon (m : List SymInsn)
    (h : m.map (fun x => x.cycle) = canonSched m.length) :
    constraintsOk m = true := by
  rw [constraintsOk_iff]
  intro i hi
  have hcyc : (m.getD i d0).cycle = (i : Int) + 1 := by
    rw [← getD_map_cycle, h]
    exact canonSched_getD m.length i hi
  have hlen3 : initCycles.length + i = 3 + i := by
    rfl
  have hbound : ∀ r : Int, (initCycles ++ m.map (fun x => x.cycle)).getD
      (clampReg r (initCycles.length + i)) 0 < (m.getD i d0).cycle := by
    intro r
    have hk : clampReg r (initCycles.length + i) < 3 + i := by
      rw [hlen3] at *
      exact clampReg_lt r (3 + i) (by omega)
    rcases Nat.lt_or_ge (clampReg r (initCycles.length + i)) 3 with h3 | h3
    · rw [getD_init3 _ _ h3, hcyc]
      omega
    · have hj : ∃ j, clampReg r (initCycles.length + i) = 3 + j ∧ j < i := by
        refine ⟨clampReg r (initCycles.length + i) - 3, by omega, by omega⟩
      obtain ⟨j, hj1, hj2⟩ := hj
      rw [hj1, getD_init3_succ, h, canonSched_getD m.length j (by omega), hcyc]
      omega
  refine ⟨hbound _, hbound _, ?_⟩
  rcases Nat.eq_zero_or_pos i with h0 | hpos
  · subst h0
    have : (initCycles ++ m.map (fun x => x.cycle)).getD (initCycles.length + 0 - 1) 0 = 0 :=
      getD_init3 _ _ (by rw [hlen3]; omega)
    rw [this, hcyc]
    omega
  · have he : initCycles.length + i - 1 = 3 + (i - 1) := by
      rw [hlen3]
      omega
    rw [he, getD_init3_succ, h, canonSched_getD m.length (i - 1) (by omega), hcyc]
    omega

/-- Last cycle of a canonically scheduled model is its instruction count. -/
theorem lastCycle_canon (m : List SymInsn)
    (h : m.map (fun x => x.cycle) = canonSched m.length) :
    lastCycle m = (m.length : Int) := by
  rw [lastCycle, runSym_cycles]
  show (initCycles ++ m.map (fun x => x.cycle)).getLastD 0 = (m.length : Int)
  rw [h]
  cases hn : m.length with
  | zero => rfl
  | succ k =>
      rw [canonSched_concat, ← List.append_assoc]
      rw [getLastD_concat2 (initCycles ++ canonSched k) ((k : Int) + 1) 0]
      push_cast
      omega

/-- Packaging a program with a matching schedule records those cycles. -/
theorem toModel_cycles (prog : List (Nat × Nat × Nat)) :
    ∀ sched : List Int, sched.length = prog.length →
      (toModel prog sched).map (fun x => x.cycle) = sched := by
  induction prog with
  | nil =>
      intro sched h
      cases sched with
      | nil => rfl
      | cons c cs => simp at h
  | cons p ps ih =>
      intro sched h
      cases sched with
      | nil => simp at h
      | cons c cs =>
          show c :: (toModel ps cs).map (fun x => x.cycle) = c :: cs
          rw [ih cs (by simpa using h)]

/-- Any computing program is a satisfying model at bound `n` via the
canonical schedule: the driver's cycle budget `max_cycles = num_insns` is
always enough. -/
theorem sat_of_computes (X n : Nat) (h : ComputesIn X n) : SatAt X n n := by
  obtain ⟨prog, hlen, hwf, hsim⟩ := h
  have hs : (canonSched n).length = prog.length := by
    rw [canonSched_len, hlen]
  refine ⟨toModel prog (canonSched n), ?_, ?_, ?_, ?_⟩
  · rw [toModel_len prog _ hs, hlen]
  · apply constraintsOk_of_canon
    rw [toModel_len prog _ hs, hlen]
    exact toModel_cycles prog _ hs
  · rw [← simFinal_decode, decode, decodeFrom_toModel prog _ 0 hwf hs]
    exact hsim
  · rw [boundOk, decide_eq_true_eq]
    have hc : (toModel prog (canonSched n)).map (fun x => x.cycle) =
        canonSched (toModel prog (canonSched n)).length := by
      rw [toModel_len prog _ hs, hlen]
      exact toModel_cycles prog _ hs
    rw [lastCycle_canon _ hc, toModel_len prog _ hs, hlen]

/-- `getD` inside bounds returns an element of the list. -/
theorem getD_mem_of_lt {α : Type} (l : List α) :
    ∀ (n : Nat) (d : α), n < l.length → l.getD n d ∈ l := by
  induction l with
  | nil =>
      intro n d h
      simp at h
  | cons x xs ih =>
      intro n d h
      cases n with
      | zero =>
          rw [List.getD_cons_zero]
          exact List.mem_cons_self x xs
      | succ n =>
          rw [List.getD_cons_succ]
          exact List.mem_cons_of_mem x (ih n d (by simpa using h))

/-- Catalog results on 8-bit operands stay 8-bit. -/
theorem opApp_lt256 (o a b : Nat) (ha : a < 256) (hb : b < 256) :
    opApp o a b < 256 := by
  have h255 : (255 : Nat) < 2 ^ 8 := by norm_num
  have ha8 : a < 2 ^ 8 := ha
  have hb8 : b < 2 ^ 8 := hb
  rcases o with _ | _ | _ | _ | _ | _ | _ | _ | _ | o
  · show (0 : Nat) < 256
    norm_num
  · show (255 : Nat) < 256
    norm_num
  · show nnot a < 256
    exact Nat.xor_lt_two_pow ha8 h255
  · show a &&& b < 256
    exact Nat.and_lt_two_pow a hb8
  · show a ||| b < 256
    exact Nat.or_lt_two_pow ha8 hb8
  · show a ^^^ b < 256
    exact Nat.xor_lt_two_pow ha8 hb8
  · show a &&& nnot b < 256
    exact Nat.and_lt_two_pow a (Nat.xor_lt_two_pow hb8 h255)
  · show a ||| nnot b < 256
    exact Nat.or_lt_two_pow ha8 (Nat.xor_lt_two_pow hb8 h255)
  · show a ^^^ nnot b < 256
    exact Nat.xor_lt_two_pow ha8 (Nat.xor_lt_two_pow hb8 h255)
  · show (0 : Nat) < 256
    norm_num

/-- A one-hot mask has its bit set. -/
theorem testBit_one_shift (v : Nat) : (1 <<< v).testBit v = true := by
  rw [Nat.shiftLeft_eq, Nat.one_mul]
  exact Nat.testBit_two_pow_self

/-- Bits survive a union on the left. -/
theorem testBit_or_left {x : Nat} (y n : Nat) (h : x.testBit n = true) :
    (x ||| y).testBit n = true := by
  rw [Nat.testBit_lor, h]
  rfl

/-- Bits survive a union on the right. -/
theorem testBit_or_right (x : Nat) {y : Nat} (n : Nat) (h : y.testBit n = true) :
    (x ||| y).testBit n = true := by
  rw [Nat.testBit_lor, h]
  exact Bool.or_true _

/-- The per-pair mask covers every catalog result on that pair. -/
theorem maskOps_covers (o a b : Nat) (ho : o < 9) :
    (maskOps a b).testBit (opApp o a b) = true := by
  rcases o with _ | _ | _ | _ | _ | _ | _ | _ | _ | o
  · show (maskOps a b).testBit 0 = true
    rw [maskOps]
    apply testBit_or_left
    apply testBit_or_left
    apply testBit_or_left
    apply testBit_or_left
    apply testBit_or_left
    apply testBit_or_left
    apply testBit_or_left
    apply testBit_or_left
    exact testBit_one_shift 0
  · show (maskOps a b).testBit 255 = true
    rw [maskOps]
    apply testBit_or_left
    apply testBit_or_left
    apply testBit_or_left
    apply testBit_or_left
    apply testBit_or_left
    apply testBit_or_left
    apply testBit_or_left
    apply testBit_or_right
    exact testBit_one_shift 255
  · show (maskOps a b).testBit (nnot a) = true
    rw [maskOps]
    apply testBit_or_left
    apply testBit_or_left
    apply testBit_or_left
    apply testBit_or_left
    apply testBit_or_left
    apply testBit_or_left
    apply testBit_or_right
    exact testBit_one_shift (nnot a)
  · show (maskOps a b).testBit (a &&& b) = true
    rw [maskOps]
    apply testBit_or_left
    apply testBit_or_left
    apply testBit_or_left
    apply testBit_or_left
    apply testBit_or_left
    apply testBit_or_right
    exact testBit_one_shift (a &&& b)
  · show (maskOps a b).testBit (a ||| b) = true
    rw [maskOps]
    apply testBit_or_left
    apply testBit_or_left
    apply testBit_or_left
    apply testBit_or_left
    apply testBit_or_right
    exact testBit_one_shift (a ||| b)
  · show (maskOps a b).testBit (a ^^^ b) = true
    rw [maskOps]
    apply testBit_or_left
    apply testBit_or_left
    apply testBit_or_left
    apply testBit_or_right
    exact testBit_one_shift (a ^^^ b)
  · show (maskOps a b).testBit (a &&& nnot b) = true
    rw [maskOps]
    apply testBit_or_left
    apply testBit_or_left
    apply testBit_or_right
    exact testBit_one_shift (a &&& nnot b)
  · show (maskOps a b).testBit (a ||| nnot b) = true
    rw [maskOps]
    apply testBit_or_left
    apply testBit_or_right
    exact testBit_one_shift (a ||| nnot b)
  · show (maskOps a b).testBit (a ^^^ nnot b) = true
    rw [maskOps]
    apply testBit_or_right
    exact testBit_one_shift (a ^^^ nnot b)
  · omega

/-- The inner fold of `maskPairs` keeps already-set bits. -/
theorem maskInner_mono (a : Nat) (l : List Nat) :
    ∀ acc n, acc.testBit n = true →
      (l.foldl (fun acc2 b => acc2 ||| maskOps a b) acc).testBit n = true := by
  induction l with
  | nil =>
      intro acc n h
      exact h
  | cons x xs ih =>
      intro acc n h
      exact ih _ n (testBit_or_left _ n h)

/-- The inner fold of `maskPairs` covers each scanned pair's mask. -/
theorem maskInner_mem (a bb : Nat) (l : List Nat) (hb : bb ∈ l) (n : Nat)
    (h : (maskOps a bb).testBit n = true) :
    ∀ acc, (l.foldl (fun acc2 b => acc2 ||| maskOps a b) acc).testBit n = true := by
  induction l with
  | nil =>
      exact absurd hb (List.not_mem_nil bb)
  | cons x xs ih =>
      intro acc
      rcases List.mem_cons.mp hb with hx | hxs
      · subst hx
        exact maskInner_mono a xs _ n (testBit_or_right acc n h)
      · exact ih hxs _

/-- The outer fold of `maskPairs` keeps already-set bits. -/
theorem maskOuter_mono (regs l : List Nat) :
    ∀ acc n, acc.testBit n = true →
      (l.foldl (fun acc3 a2 => regs.foldl (fun acc2 b => acc2 ||| maskOps a2 b) acc3)
        acc).testBit n = true := by
  induction l with
  | nil =>
      intro acc n h
      exact h
  | cons x xs ih =>
      intro acc n h
      exact ih _ n (maskInner_mono x regs acc n h)

/-- `maskPairs` covers every one-instruction result over the register file. -/
theorem maskPairs_covers (regs : List Nat) (o a b : Nat) (ho : o < 9)
    (ha : a ∈ regs) (hb : b ∈ regs) :
    (maskPairs regs).testBit (opApp o a b) = true := by
  rw [maskPairs]
  have hgen : ∀ (l : List Nat) (acc : Nat), a ∈ l →
      (l.foldl (fun acc3 a2 => regs.foldl (fun acc2 b2 => acc2 ||| maskOps a2 b2) acc3)
        acc).testBit (opApp o a b) = true := by
    intro l
    induction l with
    | nil =>
        intro acc hmem
        exact absurd hmem (List.not_mem_nil a)
    | cons x xs ih =>
        intro acc hmem
        rcases List.mem_cons.mp hmem with hx | hxs
        · subst hx
          exact maskOuter_mono regs xs _ _
            (maskInner_mem a b regs hb _ (maskOps_covers o a b ho) acc)
        · exact ih _ hxs
  exact hgen regs 0 ha

/-- `scanGo` covers `f v` for every in-range set bit `v` of the source. -/
theorem scanGo_covers (src : Nat) (f : Nat → Nat) (v n : Nat)
    (hv : src.testBit v = true) (h : (f v).testBit n = true) :
    ∀ fuel, v < fuel → (scanGo src f fuel).testBit n = true := by
  intro fuel
  induction fuel with
  | zero =>
      intro hlt
      exact absurd hlt (Nat.not_lt_zero v)
  | succ k ih =>
      intro hlt
      rw [scanGo]
      rcases Nat.lt_or_ge v k with hk | hk
      · exact testBit_or_right _ n (ih hk)
      · have hvk : v = k := by omega
        subst hvk
        rw [if_pos hv]
        exact testBit_or_left _ n h

/-- `scan256` covers `f v` for every 8-bit set bit `v` of the source. -/
theorem scan256_covers (src : Nat) (f : Nat → Nat) (v n : Nat)
    (hv : src.testBit v = true) (hvlt : v < 256) (h : (f v).testBit n = true) :
    (scan256 src f).testBit n = true :=
  scanGo_covers src f v n hv h 256 hvlt

/-- All input registers are 8-bit values. -/
theorem mem_initRegs_lt256 : ∀ v ∈ initRegs, v < 256 := by decide

/-- Any one-instruction computation lands in the level-1 reachability mask. -/
theorem computes_one_reach (X : Nat) (h : ComputesIn X 1) :
    reach1Mask.testBit X = true := by
  obtain ⟨prog, hlen, hwf, hsim⟩ := h
  cases prog with
  | nil => simp at hlen
  | cons p ps =>
      cases ps with
      | cons q qs => simp at hlen
      | nil =>
          simp only [progWF, progWFFrom, Bool.and_eq_true, decide_eq_true_eq,
            Bool.and_true] at hwf
          obtain ⟨⟨hp1, hp2⟩, hp3⟩ := hwf
          have hfin : simFinal [p] = opApp p.1 (initRegs.getD p.2.1 0) (initRegs.getD p.2.2 0) := by
            show ((initRegs ++ [opApp p.1 (initRegs.getD p.2.1 0) (initRegs.getD p.2.2 0)]).getLastD 0) = _
            exact getLastD_concat2 _ _ 0
          rw [hfin] at hsim
          rw [← hsim, reach1Mask]
          exact maskPairs_covers initRegs p.1 _ _ hp1
            (getD_mem_of_lt initRegs p.2.1 0 (by change p.2.1 < 3; omega))
            (getD_mem_of_lt initRegs p.2.2 0 (by change p.2.2 < 3; omega))

/-- Any two-instruction computation lands in the level-2 reachability mask. -/
theorem computes_two_reach (X : Nat) (h : ComputesIn X 2) :
    reach2Total.testBit X = true := by
  obtain ⟨prog, hlen, hwf, hsim⟩ := h
  cases prog with
  | nil => simp at hlen
  | cons p ps =>
      cases ps with
      | nil => simp at hlen
      | cons q qs =>
          cases qs with
          | cons r rs => simp at hlen
          | nil =>
              obtain ⟨po, pa, pb⟩ := p
              obtain ⟨qo, qa, qb⟩ := q
              simp only [progWF, progWFFrom, Bool.and_eq_true, decide_eq_true_eq,
                Bool.and_true] at hwf
              obtain ⟨⟨⟨hp1, hp2⟩, hp3⟩, ⟨⟨hq1, hq2⟩, hq3⟩⟩ := hwf
              set w0 := opApp po (initRegs.getD pa 0) (initRegs.getD pb 0) with hw0
              set R1 := initRegs ++ [w0] with hR1
              have hw0lt : w0 < 256 :=
                opApp_lt256 _ _ _
                  (mem_initRegs_lt256 _ (getD_mem_of_lt initRegs pa 0 (by change pa < 3; omega)))
                  (mem_initRegs_lt256 _ (getD_mem_of_lt initRegs pb 0 (by change pb < 3; omega)))
              have hw0bit : reach1Mask.testBit w0 = true := by
                rw [reach1Mask]
                exact maskPairs_covers initRegs po _ _ hp1
                  (getD_mem_of_lt initRegs pa 0 (by change pa < 3; omega))
                  (getD_mem_of_lt initRegs pb 0 (by change pb < 3; omega))
              have hfin : simFinal [(po, pa, pb), (qo, qa, qb)] =
                  opApp qo (R1.getD qa 0) (R1.getD qb 0) := by
                show ((R1 ++ [opApp qo (R1.getD qa 0) (R1.getD qb 0)]).getLastD 0) = _
                exact getLastD_concat2 _ _ 0
              rw [hfin] at hsim
              rw [← hsim, reach2Total]
              refine scan256_covers reach1Mask reach2MaskFrom w0 _ hw0bit hw0lt ?_
              rw [reach2MaskFrom, ← hR1]
              exact maskPairs_covers R1 qo _ _ hq1
                (getD_mem_of_lt R1 qa 0 (by change qa < 4; omega))
                (getD_mem_of_lt R1 qb 0 (by change qb < 4; omega))

/-- Any three-instruction computation lands in the level-3 reachability
mask. -/
theorem computes_three_reach (X : Nat) (h : ComputesIn X 3) :
    reach3Total.testBit X = true := by
  obtain ⟨prog, hlen, hwf, hsim⟩ := h
  cases prog with
  | nil => simp at hlen
  | cons p ps =>
      cases ps with
      | nil => simp at hlen
      | cons q qs =>
          cases qs with
          | nil => simp at hlen
          | cons r rs =>
              cases rs with
              | cons s ss => simp at hlen
              | nil =>
                  obtain ⟨po, pa, pb⟩ := p
                  obtain ⟨qo, qa, qb⟩ := q
                  obtain ⟨ro, ra, rb⟩ := r
                  simp only [progWF, progWFFrom, Bool.and_eq_true, decide_eq_true_eq,
                    Bool.and_true] at hwf
                  obtain ⟨⟨⟨hp1, hp2⟩, hp3⟩, ⟨⟨hq1, hq2⟩, hq3⟩, ⟨⟨hr1, hr2⟩, hr3⟩⟩ := hwf
                  set w0 := opApp po (initRegs.getD pa 0) (initRegs.getD pb 0) with hw0
                  set R1 := initRegs ++ [w0] with hR1
                  set w1 := opApp qo (R1.getD qa 0) (R1.getD qb 0) with hw1
                  set R2 := R1 ++ [w1] with hR2
                  have hmemR1 : ∀ v ∈ R1, v < 256 := by
                    intro v hv
                    rcases List.mem_append.mp hv with hvi | hvw
                    · exact mem_initRegs_lt256 v hvi
                    · have : v = w0 := by simpa using hvw
                      subst this
                      exact opApp_lt256 _ _ _
                        (mem_initRegs_lt256 _ (getD_mem_of_lt initRegs pa 0 (by change pa < 3; omega)))
                        (mem_initRegs_lt256 _ (getD_mem_of_lt initRegs pb 0 (by change pb < 3; omega)))
                  have hw0lt : w0 < 256 :=
                    opApp_lt256 _ _ _
                      (mem_initRegs_lt256 _ (getD_mem_of_lt initRegs pa 0 (by change pa < 3; omega)))
                      (mem_initRegs_lt256 _ (getD_mem_of_lt initRegs pb 0 (by change pb < 3; omega)))
                  have hw1lt : w1 < 256 :=
                    opApp_lt256 _ _ _
                      (hmemR1 _ (getD_mem_of_lt R1 qa 0 (by change qa < 4; omega)))
                      (hmemR1 _ (getD_mem_of_lt R1 qb 0 (by change qb < 4; omega)))
                  have hw0bit : reach1Mask.testBit w0 = true := by
                    rw [reach1Mask]
                    exact maskPairs_covers initRegs po _ _ hp1
                      (getD_mem_of_lt initRegs pa 0 (by change pa < 3; omega))
                      (getD_mem_of_lt initRegs pb 0 (by change pb < 3; omega))
                  have hw1bit : (reach2MaskFrom w0).testBit w1 = true := by
                    rw [reach2MaskFrom, ← hR1]
                    exact maskPairs_covers R1 qo _ _ hq1
                      (getD_mem_of_lt R1 qa 0 (by change qa < 4; omega))
                      (getD_mem_of_lt R1 qb 0 (by change qb < 4; omega))
                  have hfin : simFinal [(po, pa, pb), (qo, qa, qb), (ro, ra, rb)] =
                      opApp ro (R2.getD ra 0) (R2.getD rb 0) := by
                    show ((R2 ++ [opApp ro (R2.getD ra 0) (R2.getD rb 0)]).getLastD 0) = _
                    exact getLastD_concat2 _ _ 0
                  have hassoc : R2 = initRegs ++ [w0, w1] := by
                    rw [hR2, hR1, List.append_assoc]
                    rfl
                  rw [hfin] at hsim
                  rw [← hsim, reach3Total]
                  refine scan256_covers reach1Mask _ w0 _ hw0bit hw0lt ?_
                  refine scan256_covers (reach2MaskFrom w0) _ w1 _ hw1bit hw1lt ?_
                  rw [← hassoc]
                  exact maskPairs_covers R2 ro _ _ hr1
                    (getD_mem_of_lt R2 ra 0 (by change ra < 5; omega))
                    (getD_mem_of_lt R2 rb 0 (by change rb < 5; omega))

/-- Under cycle bound 1 every satisfiable query's value is one-instruction
reachable: the final instruction can only read the inputs, since every
temporary issues at cycle 1 or later. -/
theorem satAt_one_reach (X n : Nat) (hn : 1 ≤ n) (h : SatAt X n 1) :
    reach1Mask.testBit X = true := by
  obtain ⟨m, hlen, hcon, hfin, hbnd⟩ := h
  rcases List.eq_nil_or_concat m with hnil | ⟨l, ins, hcat⟩
  · subst hnil
    simp at hlen
    omega
  · rw [List.concat_eq_append] at hcat
    subst hcat
    have hlast : lastCycle (l ++ [ins]) = ins.cycle := lastCycle_concat l ins
    have hb : ins.cycle ≤ 1 := by
      simp only [boundOk, decide_eq_true_eq] at hbnd
      rw [hlast] at hbnd
      omega
    have hok := (constraintsOk_iff _).mp hcon l.length (by simp)
    have hins : (l ++ [ins]).getD l.length d0 = ins := getD_concat_len l ins d0
    have hge := cycles_ge_one _ hcon
    have hb3 : initCycles.length + l.length = 3 + l.length := rfl
    obtain ⟨ho1, ho2, _⟩ := hok
    rw [hins, hb3] at ho1 ho2
    have hksmall : ∀ r : Int,
        (initCycles ++ (l ++ [ins]).map (fun x => x.cycle)).getD
          (clampReg r (3 + l.length)) 0 < ins.cycle →
        clampReg r (3 + l.length) < 3 := by
      intro r hlt
      rcases Nat.lt_or_ge (clampReg r (3 + l.length)) 3 with h3 | h3
      · exact h3
      · exfalso
        have hkb : clampReg r (3 + l.length) < 3 + l.length :=
          clampReg_lt r (3 + l.length) (by omega)
        have hj : ∃ j, clampReg r (3 + l.length) = 3 + j ∧ j < l.length :=
          ⟨clampReg r (3 + l.length) - 3, by omega, by omega⟩
        obtain ⟨j, hj1, hj2⟩ := hj
        rw [hj1] at hlt
        have := fullCycles_getD3 (l ++ [ins]) j
        rw [fullCycles] at this
        rw [this] at hlt
        have hc1 := hge j (by simp; omega)
        have hjj : (l ++ [ins]).getD j d0 = l.getD j d0 := List.getD_append l [ins] d0 j hj2
        rw [hjj] at hlt hc1
        omega
    have hk1 : clampReg ins.r1 (3 + l.length) < 3 := hksmall ins.r1 ho1
    have hk2 : clampReg ins.r2 (3 + l.length) < 3 := hksmall ins.r2 ho2
    have hrunregs : (runSym (l ++ [ins])).1 =
        (runSym l).1 ++ [opChain ins.opcode (chainSel (runSym l).1 ins.r1)
          (chainSel (runSym l).1 ins.r2)] := by
      rw [runSym, List.foldl_append]
      rfl
    have hfv : finalVal (l ++ [ins]) = opChain ins.opcode
        (chainSel (runSym l).1 ins.r1) (chainSel (runSym l).1 ins.r2) := by
      rw [finalVal, hrunregs]
      exact getLastD_concat2 _ _ 0
    have hreglen : (runSym l).1.length = 3 + l.length := runSym_regs_len l
    have hext := runFrom_regs_ext l (initRegs, initCycles)
    obtain ⟨t, ht⟩ := hext
    have hval : ∀ r : Int, clampReg r (3 + l.length) < 3 →
        chainSel (runSym l).1 r = initRegs.getD (clampReg r (3 + l.length)) 0 := by
      intro r hr3
      rw [chainSel_eq (runSym l).1 r (by omega), hreglen]
      show (List.foldl step (initRegs, initCycles) l).1.getD (clampReg r (3 + l.length)) 0 = _
      rw [ht, List.getD_append]
      change clampReg r (3 + l.length) < 3
      exact hr3
    rw [hfv, opChain_eq, hval ins.r1 hk1, hval ins.r2 hk2] at hfin
    rw [← hfin, reach1Mask]
    exact maskPairs_covers initRegs (clampOp ins.opcode) _ _ (clampOp_lt ins.opcode)
      (getD_mem_of_lt initRegs _ 0 (by change _ < 3; exact hk1))
      (getD_mem_of_lt initRegs _ 0 (by change _ < 3; exact hk2))

/-- For every code a concrete catalog program of at most four
instructions computing it (entry `X` computes `X`). -/
def progTable : List (List (Nat × Nat × Nat)) :=
  [[(0, 0, 0)],
   [(2, 0, 0), (4, 1, 2), (6, 3, 4)],
   [(4, 0, 1), (6, 2, 3)],
   [(2, 0, 0), (6, 3, 1)],
   [(4, 0, 2), (6, 1, 3)],
   [(2, 0, 0), (6, 3, 2)],
   [(5, 1, 2), (6, 3, 0)],
   [(2, 0, 0), (3, 1, 2), (6, 3, 4)],
   [(3, 1, 2), (6, 3, 0)],
   [(8, 1, 2), (6, 3, 0)],
   [(6, 2, 0)],
   [(7, 2, 1), (6, 3, 0)],
   [(6, 1, 0)],
   [(7, 1, 2), (6, 3, 0)],
   [(4, 1, 2), (6, 3, 0)],
   [(2, 0, 0)],
   [(4, 1, 2), (6, 0, 3)],
   [(2, 1, 0), (6, 3, 2)],
   [(5, 0, 2), (6, 3, 1)],
   [(2, 0, 0), (7, 3, 2), (6, 4, 1)],
   [(5, 0, 1), (6, 3, 2)],
   [(2, 0, 0), (7, 3, 1), (6, 4, 2)],
   [(3, 0, 1), (4, 0, 1), (4, 2, 3), (5, 4, 5)],
   [(3, 0, 1), (5, 0, 1), (3, 2, 4), (8, 3, 5)],
   [(5, 0, 1), (5, 0, 2), (3, 3, 4)],
   [(3, 0, 1), (6, 2, 3), (8, 1, 4)],
   [(3, 0, 1), (4, 2, 3), (5, 0, 4)],
   [(3, 0, 2), (6, 1, 2), (8, 3, 4)],
   [(3, 0, 2), (4, 1, 3), (5, 0, 4)],
   [(3, 0, 1), (6, 2, 1), (8, 3, 4)],
   [(4, 1, 2), (5, 0, 3)],
   [(2, 0, 0), (4, 1, 2), (7, 3, 4)],
   [(3, 0, 2), (6, 3, 1)],
   [(8, 0, 2), (6, 3, 1)],
   [(6, 2, 1)],
   [(7, 2, 0), (6, 3, 1)],
   [(5, 0, 1), (5, 0, 2), (6, 3, 4)],
   [(3, 0, 1), (6, 2, 3), (8, 0, 4)],
   [(3, 0, 1), (4, 2, 3), (5, 1, 4)],
   [(3, 1, 2), (6, 0, 2), (8, 3, 4)],
   [(5, 0, 1), (3, 2, 3)],
   [(3, 0, 1), (4, 0, 1), (6, 2, 3), (8, 4, 5)],
   [(3, 0, 1), (6, 2, 3)],
   [(3, 0, 1), (4, 0, 1), (6, 2, 3), (7, 5, 4)],
   [(4, 1, 2), (3, 0, 3), (5, 1, 4)],
   [(6, 2, 1), (8, 0, 3)],
   [(3, 0, 1), (4, 1, 2), (5, 3, 4)],
   [(6, 2, 1), (7, 3, 0)],
   [(6, 0, 1)],
   [(7, 0, 2), (6, 3, 1)],
   [(4, 0, 2), (6, 3, 1)],
   [(2, 1, 0)],
   [(3, 1, 2), (4, 0, 3), (5, 1, 4)],
   [(3, 0, 1), (6, 2, 0), (8, 3, 4)],
   [(4, 0, 2), (5, 1, 3)],
   [(2, 0, 0), (6, 3, 2), (7, 4, 1)],
   [(4, 0, 2), (3, 1, 3), (5, 0, 4)],
   [(6, 2, 0), (8, 1, 3)],
   [(3, 0, 1), (4, 0, 2), (5, 3, 4)],
   [(6, 2, 0), (7, 3, 1)],
   [(5, 0, 1)],
   [(4, 0, 2), (5, 0, 1), (7, 4, 3)],
   [(5, 0, 1), (6, 2, 0), (4, 3, 4)],
   [(2, 0, 0), (7, 3, 1)],
   [(3, 0, 1), (6, 3, 2)],
   [(8, 0, 1), (6, 3, 2)],
   [(5, 0, 1), (5, 0, 2), (6, 4, 3)],
   [(3, 0, 2), (6, 1, 3), (8, 0, 4)],
   [(6, 1, 2)],
   [(7, 1, 0), (6, 3, 2)],
   [(3, 0, 2), (4, 1, 3), (5, 2, 4)],
   [(3, 1, 2), (6, 0, 1), (8, 3, 4)],
   [(5, 0, 2), (3, 1, 3)],
   [(3, 0, 2), (4, 0, 2), (6, 1, 3), (8, 4, 5)],
   [(4, 1, 2), (3, 0, 3), (5, 2, 4)],
   [(6, 1, 2), (8, 0, 3)],
   [(3, 0, 2), (6, 1, 3)],
   [(3, 0, 2), (4, 0, 2), (6, 1, 3), (7, 5, 4)],
   [(3, 0, 2), (4, 1, 2), (5, 3, 4)],
   [(6, 1, 2), (7, 3, 0)],
   [(6, 0, 2)],
   [(7, 0, 1), (6, 3, 2)],
   [(3, 1, 2), (4, 0, 3), (5, 2, 4)],
   [(3, 0, 2), (6, 1, 0), (8, 3, 4)],
   [(4, 0, 1), (6, 3, 2)],
   [(2, 2, 0)],
   [(4, 0, 1), (5, 2, 3)],
   [(2, 0, 0), (6, 3, 1), (7, 4, 2)],
   [(4, 0, 1), (3, 2, 3), (5, 0, 4)],
   [(6, 1, 0), (8, 2, 3)],
   [(5, 0, 2)],
   [(4, 0, 1), (5, 0, 2), (7, 4, 3)],
   [(3, 0, 2), (4, 0, 1), (5, 3, 4)],
   [(6, 1, 0), (7, 3, 2)],
   [(5, 0, 2), (6, 1, 0), (4, 3, 4)],
   [(2, 0, 0), (7, 3, 2)],
   [(5, 1, 2), (3, 0, 3)],
   [(3, 1, 2), (4, 0, 3), (5, 1, 2), (8, 4, 5)],
   [(4, 0, 2), (3, 1, 3), (5, 2, 4)],
   [(6, 0, 2), (8, 1, 3)],
   [(4, 0, 1), (3, 2, 3), (5, 1, 4)],
   [(6, 0, 1), (8, 2, 3)],
   [(5, 1, 2)],
   [(4, 0, 1), (5, 1, 2), (7, 4, 3)],
   [(3, 0, 1), (4, 0, 1), (3, 2, 4), (5, 3, 5)],
   [(5, 0, 1), (8, 2, 3)],
   [(3, 0, 1), (5, 2, 3)],
   [(3, 0, 1), (4, 0, 1), (5, 2, 3), (7, 5, 4)],
   [(3, 0, 2), (5, 1, 3)],
   [(3, 0, 2), (4, 0, 2), (5, 1, 3), (7, 5, 4)],
   [(5, 1, 2), (6, 1, 0), (4, 3, 4)],
   [(5, 1, 2), (7, 3, 0)],
   [(3, 1, 2), (6, 0, 3)],
   [(3, 1, 2), (4, 1, 2), (6, 0, 3), (7, 5, 4)],
   [(3, 1, 2), (4, 0, 2), (5, 3, 4)],
   [(6, 0, 2), (7, 3, 1)],
   [(3, 1, 2), (4, 0, 1), (5, 3, 4)],
   [(6, 0, 1), (7, 3, 2)],
   [(5, 1, 2), (6, 0, 1), (4, 3, 4)],
   [(2, 1, 0), (7, 3, 2)],
   [(3, 1, 2), (5, 0, 3)],
   [(3, 1, 2), (4, 1, 2), (5, 0, 3), (7, 5, 4)],
   [(5, 0, 2), (6, 0, 1), (4, 3, 4)],
   [(5, 0, 2), (7, 3, 1)],
   [(5, 0, 1), (6, 0, 2), (4, 3, 4)],
   [(5, 0, 1), (7, 3, 2)],
   [(5, 0, 1), (5, 0, 2), (4, 3, 4)],
   [(2, 0, 0), (3, 1, 2), (7, 3, 4)],
   [(3, 0, 1), (3, 2, 3)],
   [(5, 0, 1), (8, 0, 2), (6, 4, 3)],
   [(5, 0, 1), (6, 2, 3)],
   [(5, 0, 1), (7, 2, 0), (6, 4, 3)],
   [(5, 0, 2), (6, 1, 3)],
   [(5, 0, 2), (7, 1, 0), (6, 4, 3)],
   [(3, 1, 2), (4, 1, 2), (5, 0, 3), (6, 4, 5)],
   [(3, 1, 2), (8, 0, 3)],
   [(3, 1, 2)],
   [(5, 1, 2), (7, 1, 0), (6, 4, 3)],
   [(6, 0, 1), (6, 2, 3)],
   [(3, 1, 2), (4, 0, 1), (7, 3, 4)],
   [(6, 0, 2), (6, 1, 3)],
   [(3, 1, 2), (4, 0, 2), (7, 3, 4)],
   [(3, 1, 2), (4, 1, 2), (6, 0, 3), (6, 4, 5)],
   [(3, 1, 2), (7, 3, 0)],
   [(5, 1, 2), (6, 0, 3)],
   [(5, 1, 2), (7, 0, 1), (6, 4, 3)],
   [(3, 0, 2), (4, 0, 2), (5, 1, 3), (6, 4, 5)],
   [(3, 0, 2), (8, 1, 3)],
   [(3, 0, 1), (4, 0, 1), (5, 2, 3), (6, 4, 5)],
   [(3, 0, 1), (8, 2, 3)],
   [(5, 0, 1), (5, 2, 3)],
   [(3, 0, 1), (4, 0, 1), (3, 2, 4), (8, 3, 5)],
   [(4, 0, 1), (5, 1, 2), (6, 3, 4)],
   [(8, 1, 2)],
   [(6, 0, 1), (5, 2, 3)],
   [(4, 0, 1), (3, 2, 3), (8, 1, 4)],
   [(6, 0, 2), (5, 1, 3)],
   [(4, 0, 2), (3, 1, 3), (8, 2, 4)],
   [(3, 1, 2), (4, 0, 3), (5, 1, 2), (5, 4, 5)],
   [(8, 1, 2), (7, 3, 0)],
   [(3, 0, 2)],
   [(5, 0, 2), (7, 0, 1), (6, 4, 3)],
   [(6, 1, 0), (6, 2, 3)],
   [(3, 0, 2), (4, 0, 1), (7, 3, 4)],
   [(4, 0, 1), (5, 0, 2), (6, 3, 4)],
   [(8, 0, 2)],
   [(6, 1, 0), (5, 2, 3)],
   [(4, 0, 1), (3, 2, 3), (8, 0, 4)],
   [(4, 0, 1), (3, 2, 3)],
   [(4, 0, 1), (8, 2, 3)],
   [(3, 2, 2)],
   [(4, 0, 1), (7, 2, 3)],
   [(3, 0, 2), (6, 1, 0), (4, 3, 4)],
   [(3, 1, 2), (4, 0, 3), (8, 2, 4)],
   [(6, 1, 0), (4, 2, 3)],
   [(7, 2, 0)],
   [(6, 1, 2), (6, 0, 3)],
   [(3, 0, 2), (4, 1, 2), (7, 3, 4)],
   [(3, 0, 2), (4, 0, 2), (6, 1, 3), (6, 4, 5)],
   [(3, 0, 2), (7, 3, 1)],
   [(6, 1, 2), (5, 0, 3)],
   [(4, 1, 2), (3, 0, 3), (8, 2, 4)],
   [(3, 0, 2), (4, 0, 2), (5, 1, 4), (4, 3, 5)],
   [(8, 0, 2), (7, 3, 1)],
   [(3, 1, 2), (6, 0, 1), (4, 3, 4)],
   [(3, 0, 2), (4, 1, 3), (8, 2, 4)],
   [(6, 0, 1), (4, 2, 3)],
   [(7, 2, 1)],
   [(3, 0, 2), (5, 0, 1), (4, 3, 4)],
   [(5, 0, 1), (5, 0, 2), (7, 3, 4)],
   [(5, 0, 1), (4, 2, 3)],
   [(3, 0, 1), (7, 2, 3)],
   [(3, 0, 1)],
   [(5, 0, 1), (7, 0, 2), (6, 4, 3)],
   [(4, 0, 2), (5, 0, 1), (6, 3, 4)],
   [(8, 0, 1)],
   [(6, 2, 0), (6, 1, 3)],
   [(3, 0, 1), (4, 0, 2), (7, 3, 4)],
   [(6, 2, 0), (5, 1, 3)],
   [(4, 0, 2), (3, 1, 3), (8, 0, 4)],
   [(4, 0, 2), (3, 1, 3)],
   [(4, 0, 2), (8, 1, 3)],
   [(3, 0, 1), (6, 2, 0), (4, 3, 4)],
   [(3, 1, 2), (4, 0, 3), (8, 1, 4)],
   [(3, 1, 1)],
   [(4, 0, 2), (7, 1, 3)],
   [(6, 2, 0), (4, 1, 3)],
   [(7, 1, 0)],
   [(6, 2, 1), (6, 0, 3)],
   [(3, 0, 1), (4, 1, 2), (7, 3, 4)],
   [(6, 2, 1), (5, 0, 3)],
   [(4, 1, 2), (3, 0, 3), (8, 1, 4)],
   [(3, 0, 1), (4, 0, 1), (6, 2, 3), (6, 4, 5)],
   [(3, 0, 1), (7, 3, 2)],
   [(3, 0, 1), (4, 0, 1), (5, 2, 4), (4, 3, 5)],
   [(8, 0, 1), (7, 3, 2)],
   [(3, 1, 2), (6, 0, 2), (4, 3, 4)],
   [(3, 0, 1), (4, 2, 3), (8, 1, 4)],
   [(3, 0, 1), (5, 0, 2), (4, 3, 4)],
   [(5, 0, 1), (5, 0, 2), (7, 4, 3)],
   [(6, 0, 2), (4, 1, 3)],
   [(7, 1, 2)],
   [(5, 0, 2), (4, 1, 3)],
   [(3, 0, 2), (7, 1, 3)],
   [(4, 1, 2), (3, 0, 3)],
   [(4, 1, 2), (8, 0, 3)],
   [(3, 0, 1), (6, 2, 1), (4, 3, 4)],
   [(3, 0, 2), (4, 1, 3), (8, 0, 4)],
   [(3, 0, 2), (6, 1, 2), (4, 3, 4)],
   [(3, 0, 1), (4, 2, 3), (8, 0, 4)],
   [(3, 0, 1), (5, 1, 2), (4, 3, 4)],
   [(5, 0, 1), (5, 1, 2), (7, 4, 3)],
   [(3, 0, 1), (4, 0, 1), (3, 2, 4), (4, 3, 5)],
   [(3, 0, 1), (4, 0, 1), (4, 2, 3), (8, 4, 5)],
   [(3, 0, 1), (4, 2, 3)],
   [(5, 0, 1), (7, 2, 3)],
   [(3, 0, 2), (4, 1, 3)],
   [(5, 0, 2), (7, 1, 3)],
   [(4, 1, 2)],
   [(4, 1, 2), (7, 3, 0)],
   [(3, 0, 0)],
   [(4, 1, 2), (7, 0, 3)],
   [(6, 2, 1), (4, 0, 3)],
   [(7, 0, 1)],
   [(6, 1, 2), (4, 0, 3)],
   [(7, 0, 2)],
   [(5, 1, 2), (4, 0, 3)],
   [(3, 1, 2), (7, 0, 3)],
   [(3, 1, 2), (4, 0, 3)],
   [(5, 1, 2), (7, 0, 3)],
   [(4, 0, 2)],
   [(4, 0, 2), (7, 3, 1)],
   [(4, 0, 1)],
   [(4, 0, 1), (7, 3, 2)],
   [(4, 0, 1), (4, 2, 3)],
   [(1, 0, 0)]]

set_option maxRecDepth 100000 in
/-- Every entry of the table is a nonempty well-formed program of at most
four instructions computing its own index. -/
theorem progTable_ok : ∀ X : Nat, X < 256 →
    1 ≤ (progTable.getD X []).length ∧ (progTable.getD X []).length ≤ 4 ∧
    progWF (progTable.getD X []) = true ∧ simFinal (progTable.getD X []) = X := by
  decide

/-- The catalog cannot produce `0x89` in one instruction. -/
theorem reach1_miss_137 : reach1Mask.testBit 0x89 = false := by decide

set_option maxRecDepth 100000 in
/-- The catalog cannot produce `0x89` in two instructions. -/
theorem reach2_miss_137 : reach2Total.testBit 0x89 = false := by decide

/-- The catalog cannot produce `0x16` in one instruction. -/
theorem reach1_miss_22 : reach1Mask.testBit 0x16 = false := by decide

set_option maxRecDepth 100000 in
/-- The catalog cannot produce `0x16` in two instructions. -/
theorem reach2_miss_22 : reach2Total.testBit 0x16 = false := by decide

set_option maxHeartbeats 4000000 in
set_option maxRecDepth 1000000 in
/-- The catalog cannot produce `0x16` in three instructions. -/
theorem reach3_miss_22 : reach3Total.testBit 0x16 = false := by decide

instance satModelDecidable (X n : Nat) (mc : Option Int) (m : List SymInsn) :
    Decidable (SatModel X n mc m) := by
  unfold SatModel
  infer_instance

/-- A concrete model: three instructions, two cycles, computing `0x89` as
`t0 = B ^ C; t1 = B | ~A; t2 = t1 & ~t0` with schedule 1, 1, 2. -/
theorem model137_sat : SatModel 0x89 3 (some 2)
    [⟨5, 1, 2, 1⟩, ⟨7, 1, 0, 1⟩, ⟨6, 4, 3, 2⟩] := by decide

/-- Replacing cycles keeps the instruction count. -/
theorem setCycles_len (m : List SymInsn) (cs : List Int) (h : cs.length = m.length) :
    (setCycles m cs).length = m.length := by
  rw [setCycles, List.length_zipWith, h]
  omega

/-- Replacing cycles records exactly the new schedule. -/
theorem setCycles_cycles (m : List SymInsn) :
    ∀ cs : List Int, cs.length = m.length →
      (setCycles m cs).map (fun x => x.cycle) = cs := by
  induction m with
  | nil =>
      intro cs h
      cases cs with
      | nil => rfl
      | cons c cs2 => simp at h
  | cons ins rest ih =>
      intro cs h
      cases cs with
      | nil => simp at h
      | cons c cs2 =>
          show c :: (setCycles rest cs2).map (fun x => x.cycle) = c :: cs2
          rw [ih cs2 (by simpa using h)]

/-- The register file of a run only depends on the choice variables, not on
the cycle assignment. -/
theorem runFrom_regs_setCycles (m : List SymInsn) :
    ∀ (cs : List Int) (st1 st2 : List Nat × List Int), st1.1 = st2.1 →
      cs.length = m.length →
      (List.foldl step st1 (setCycles m cs)).1 = (List.foldl step st2 m).1 := by
  induction m with
  | nil =>
      intro cs st1 st2 h hl
      have h0 : cs = [] := by
        cases cs with
        | nil => rfl
        | cons c cs2 => simp at hl
      subst h0
      exact h
  | cons ins rest ih =>
      intro cs st1 st2 h hl
      cases cs with
      | nil => simp at hl
      | cons c cs2 =>
          show (List.foldl step (step st1 ⟨ins.opcode, ins.r1, ins.r2, c⟩)
            (setCycles rest cs2)).1 = (List.foldl step (step st2 ins) rest).1
          apply ih cs2
          · show st1.1 ++ [_] = st2.1 ++ [_]
            rw [h]
          · simpa using hl

/-- Rescheduling does not change the computed final value. -/
theorem finalVal_setCycles (m : List SymInsn) (cs : List Int)
    (h : cs.length = m.length) : finalVal (setCycles m cs) = finalVal m := by
  rw [finalVal, finalVal, runSym, runSym,
    runFrom_regs_setCycles m cs (initRegs, initCycles) (initRegs, initCycles) rfl h]

/-- C1: for every target code `X` and every satisfying model of
`solve (X, num_insns, max_cycles)`, the program decoded from the model (with
out-of-range opcode and register values clamped to 0) simulates, from
`A = 0xF0, B = 0xCC, C = 0xAA` under the catalog semantics, to exactly `X`
in the final register. -/
theorem decoded_model_simulates_to_code (X n : Nat) (mc : Option Int)
    (m : List SymInsn) (h : SatModel X n mc m) : simFinal (decode m) = X := by
  rw [simFinal_decode]
  exact h.2.2.1

/-- Witness for C1 at the model `xor A A` computing code 0. -/
theorem decoded_model_simulates_to_code_witness :
    simFinal (decode [(⟨5, 0, 0, 1⟩ : SymInsn)]) = 0 :=
  decoded_model_simulates_to_code 0 1 (some 1) [⟨5, 0, 0, 1⟩] (by decide)

/-- C4: in every model of the encoder's constraints, instruction `i`'s cycle
strictly exceeds the cycle of each clamp-resolved operand (inputs having
cycle 0), and cycles are non-decreasing in instruction index (the `i = 0`
case bounded below by the inputs' cycle 0 at index 2). -/
theorem encoder_cycle_invariants (m : List SymInsn) (h : constraintsOk m = true)
    (i : Nat) (hi : i < m.length) :
    (fullCycles m).getD (clampReg (m.getD i d0).r1 (3 + i)) 0 < (m.getD i d0).cycle ∧
    (fullCycles m).getD (clampReg (m.getD i d0).r2 (3 + i)) 0 < (m.getD i d0).cycle ∧
    (fullCycles m).getD (2 + i) 0 ≤ (m.getD i d0).cycle := by
  have hok := (constraintsOk_iff m).mp h i hi
  obtain ⟨h1, h2, h3⟩ := hok
  have he : initCycles.length + i - 1 = 2 + i := by
    change 3 + i - 1 = 2 + i
    omega
  rw [he] at h3
  exact ⟨h1, h2, h3⟩

/-- Witness for C4 at a one-instruction model. -/
theorem encoder_cycle_invariants_witness :
    (fullCycles [(⟨0, 0, 0, 1⟩ : SymInsn)]).getD
        (clampReg ([(⟨0, 0, 0, 1⟩ : SymInsn)].getD 0 d0).r1 (3 + 0)) 0 <
      ([(⟨0, 0, 0, 1⟩ : SymInsn)].getD 0 d0).cycle ∧
    (fullCycles [(⟨0, 0, 0, 1⟩ : SymInsn)]).getD
        (clampReg ([(⟨0, 0, 0, 1⟩ : SymInsn)].getD 0 d0).r2 (3 + 0)) 0 <
      ([(⟨0, 0, 0, 1⟩ : SymInsn)].getD 0 d0).cycle ∧
    (fullCycles [(⟨0, 0, 0, 1⟩ : SymInsn)]).getD (2 + 0) 0 ≤
      ([(⟨0, 0, 0, 1⟩ : SymInsn)].getD 0 d0).cycle :=
  encoder_cycle_invariants [⟨0, 0, 0, 1⟩] (by decide) 0 (by decide)

/-- C5: the decoder's clamping agrees with the encoder's conditional-chain
fallbacks: decoding is total (always a well-formed program of the same
length with in-range opcode and register indices), and simulating the
decoded program reproduces the symbolic register file exactly, so clamping
never changes the program's semantics relative to the symbolic evaluation. -/
theorem decoder_clamp_matches_encoder_fallback (m : List SymInsn) :
    simulate (decode m) = (runSym m).1 ∧ (decode m).length = m.length ∧
    progWF (decode m) = true :=
  ⟨sim_decode_eq m, by rw [decode, decodeFrom_len], progWF_decodeFrom m 0⟩

/-- C9: every constrained model issues every instruction at cycle 1 or
later, so for any `num_insns = n ≥ 1` the added bound `cycle_last <= 0` is
unsatisfiable: `solve (X, n, max_cycles := 0)` has no model, and the
alternative-solution probe issued after a primary found at `max_cycles = 1`
can never succeed. -/
theorem cycle_bound_zero_unsat (n : Nat) (hn : 1 ≤ n) :
    (∀ m : List SymInsn, constraintsOk m = true →
      ∀ i, i < m.length → 1 ≤ (m.getD i d0).cycle) ∧
    (∀ X : Nat, ¬ ∃ m, SatModel X n (some 0) m) := by
  constructor
  · exact fun m h => cycles_ge_one m h
  · rintro X ⟨m, hm⟩
    have hlen : 1 ≤ m.length := by
      rw [hm.1]
      exact hn
    have h1 := lastCycle_ge_one m hlen hm.2.1
    have h2 : lastCycle m ≤ 0 := by
      have hb := hm.2.2.2
      simp only [boundOk, decide_eq_true_eq] at hb
      exact hb
    omega

/-- Witness for C9 at `n = 1`. -/
theorem cycle_bound_zero_unsat_witness :
    (∀ m : List SymInsn, constraintsOk m = true →
      ∀ i, i < m.length → 1 ≤ (m.getD i d0).cycle) ∧
    (∀ X : Nat, ¬ ∃ m, SatModel X 1 (some 0) m) :=
  cycle_bound_zero_unsat 1 (by decide)

/-- C10: satisfiability is monotone in the cycle bound, and the bound
`max_cycles = num_insns` is always sufficient: an unboundedly satisfiable
query stays satisfiable under `cycle_last <= n` via the fully sequential
schedule `cycle_i = i + 1`, so the driver's inner loop over
`max_cycles = 1 .. num_insns` never misses an achievable instruction
count. -/
theorem sat_monotone_and_bound_sufficient (X n : Nat) :
    (∀ c d : Int, c ≤ d → (∃ m, SatModel X n (some c) m) →
      ∃ m, SatModel X n (some d) m) ∧
    ((∃ m, SatModel X n none m) → ∃ m, SatModel X n (some (n : Int)) m) := by
  constructor
  · rintro c d hcd ⟨m, hm⟩
    refine ⟨m, hm.1, hm.2.1, hm.2.2.1, ?_⟩
    have hb := hm.2.2.2
    simp only [boundOk, decide_eq_true_eq] at hb ⊢
    omega
  · rintro ⟨m, hm⟩
    have hcl : (canonSched m.length).length = m.length := canonSched_len m.length
    have hsl : (setCycles m (canonSched m.length)).length = m.length :=
      setCycles_len m _ hcl
    have hsc : (setCycles m (canonSched m.length)).map (fun x => x.cycle) =
        canonSched (setCycles m (canonSched m.length)).length := by
      rw [hsl]
      exact setCycles_cycles m _ hcl
    refine ⟨setCycles m (canonSched m.length), ?_, ?_, ?_, ?_⟩
    · rw [hsl]
      exact hm.1
    · exact constraintsOk_of_canon _ hsc
    · rw [finalVal_setCycles m _ hcl]
      exact hm.2.2.1
    · simp only [boundOk, decide_eq_true_eq]
      rw [lastCycle_canon _ hsc, hsl, hm.1]

/-- Witness for C10: the bounded model obtained from an unbounded one. -/
theorem sat_monotone_and_bound_sufficient_witness :
    ∃ m, SatModel 0 1 (some 1) m :=
  (sat_monotone_and_bound_sufficient 0 1).2 ⟨[⟨0, 0, 0, 1⟩], by decide⟩

/-- C2: when the driver's scan for code `X` first succeeds at `(N, C)` (the
emitted primary program's shape), `N` is the least instruction count of any
catalog program computing `X` among the scanned counts `n ≥ 1`, and `C` is
the least total cycle count (cycle of the last instruction) over all valid
schedules of all `N`-instruction catalog programs computing `X`. -/
theorem emitted_program_lex_minimal (X N C : Nat) (h : EmitsAt X N C) :
    (∀ n, 1 ≤ n → n < N → ¬ ComputesIn X n) ∧
    (∀ (prog : List (Nat × Nat × Nat)) (sched : List Int),
      progWF prog = true → prog.length = N → simFinal prog = X →
      sched.length = N → constraintsOk (toModel prog sched) = true →
      (C : Int) ≤ lastCycle (toModel prog sched)) := by
  obtain ⟨hC1, hCN, hsat, hbef⟩ := h
  constructor
  · intro n h1 h2 hc
    exact hbef n n ⟨h1, le_refl n, Or.inl h2⟩ (sat_of_computes X n hc)
  · intro prog sched hwf hplen hsim hslen hcon
    have hmlen : (toModel prog sched).length = N := by
      rw [toModel_len prog sched (by omega), hplen]
    have hfv : finalVal (toModel prog sched) = X := by
      rw [← simFinal_decode, decode, decodeFrom_toModel prog sched 0 hwf (by omega)]
      exact hsim
    have hge1 : 1 ≤ lastCycle (toModel prog sched) :=
      lastCycle_ge_one _ (by omega) hcon
    by_contra hlt
    push_neg at hlt
    have hnat : ∃ c : Nat, (c : Int) = lastCycle (toModel prog sched) ∧ 1 ≤ c ∧ c < C := by
      refine ⟨(lastCycle (toModel prog sched)).toNat, ?_, ?_, ?_⟩ <;> omega
    obtain ⟨c, hc1, hc2, hc3⟩ := hnat
    apply hbef N c ⟨hc2, by omega, Or.inr ⟨rfl, hc3⟩⟩
    refine ⟨toModel prog sched, hmlen, hcon, hfv, ?_⟩
    simp only [boundOk, decide_eq_true_eq]
    omega

/-- Witness for C2 at `X = 0`, `N = 1`, `C = 1` (the first scanned pair). -/
theorem emitted_program_lex_minimal_witness :
    (∀ n, 1 ≤ n → n < 1 → ¬ ComputesIn 0 n) ∧
    (∀ (prog : List (Nat × Nat × Nat)) (sched : List Int),
      progWF prog = true → prog.length = 1 → simFinal prog = 0 →
      sched.length = 1 → constraintsOk (toModel prog sched) = true →
      ((1 : Nat) : Int) ≤ lastCycle (toModel prog sched)) := by
  refine emitted_program_lex_minimal 0 1 1 ⟨le_refl 1, le_refl 1,
    ⟨[⟨0, 0, 0, 1⟩], by decide⟩, ?_⟩
  intro n c hb hS
  obtain ⟨h1, h2, h3⟩ := hb
  rcases h3 with h3 | h3
  · omega
  · obtain ⟨h4, h5⟩ := h3
    omega

/-- C3: for every code `X < 256` the driver's search succeeds: some scanned
pair `(num_insns, max_cycles)` with `1 ≤ max_cycles ≤ num_insns` is
satisfiable, so `solve_code` reaches a satisfiable pair, prints one primary
program for the code, and returns; the search never runs forever. -/
theorem search_succeeds_for_every_code (X : Nat) (hX : X < 256) :
    ∃ n c : Nat, 1 ≤ c ∧ c ≤ n ∧ SatAt X n c := by
  obtain ⟨h1, h4, hwf, hsim⟩ := progTable_ok X hX
  exact ⟨(progTable.getD X []).length, (progTable.getD X []).length, h1, le_refl _,
    sat_of_computes X _ ⟨progTable.getD X [], rfl, hwf, hsim⟩⟩

/-- Witness for C3 at the hardest family member `X = 0x16`. -/
theorem search_succeeds_for_every_code_witness :
    ∃ n c : Nat, 1 ≤ c ∧ c ≤ n ∧ SatAt 0x16 n c :=
  search_succeeds_for_every_code 0x16 (by decide)

/-- Counterexample to C6: no catalog program of at most three instructions
computes the code `0x16` (and 23 further codes share this); three
instructions do not suffice for every code. -/
theorem three_insns_insufficient : ¬ ∃ n : Nat, n ≤ 3 ∧ ComputesIn 0x16 n := by
  rintro ⟨n, hn, hc⟩
  have h4 : n = 0 ∨ n = 1 ∨ n = 2 ∨ n = 3 := by omega
  rcases h4 with h | h | h | h
  · subst h
    obtain ⟨prog, hlen, _, hsim⟩ := hc
    rw [List.length_eq_zero] at hlen
    subst hlen
    exact absurd hsim (by decide)
  · subst h
    have hbit := computes_one_reach 0x16 hc
    rw [reach1_miss_22] at hbit
    exact Bool.false_ne_true hbit
  · subst h
    have hbit := computes_two_reach 0x16 hc
    rw [reach2_miss_22] at hbit
    exact Bool.false_ne_true hbit
  · subst h
    have hbit := computes_three_reach 0x16 hc
    rw [reach3_miss_22] at hbit
    exact Bool.false_ne_true hbit

/-- C6 amended: for every code in `0..255` there exists a program of at most
four instructions from the catalog computing it from `A = 0xF0, B = 0xCC,
C = 0xAA` (four is needed: `0x16` and 23 other codes admit no 3-instruction
program). -/
theorem every_code_within_four_insns (X : Nat) (hX : X < 256) :
    ∃ n : Nat, 1 ≤ n ∧ n ≤ 4 ∧ ComputesIn X n := by
  obtain ⟨h1, h4, hwf, hsim⟩ := progTable_ok X hX
  exact ⟨(progTable.getD X []).length, h1, h4,
    ⟨progTable.getD X [], rfl, hwf, hsim⟩⟩

/-- Witness for the amended C6 at `X = 0x16`. -/
theorem every_code_within_four_insns_witness :
    ∃ n : Nat, 1 ≤ n ∧ n ≤ 4 ∧ ComputesIn 0x16 n :=
  every_code_within_four_insns 0x16 (by decide)

/-- Counterexample to C7: the scan pair `(3, 2)` is satisfiable for code
`0x89` (model `t0 = B ^ C; t1 = B | ~A; t2 = t1 & ~t0`), and `(3, 2)`
precedes `(4, 4)` in the driver's scan order, so the driver's first success
for `0x89` is not `(4, 4)`: it does not emit a 4-instruction primary. -/
theorem code137_not_emitted_at_4_4 : ¬ EmitsAt 0x89 4 4 := by
  intro h
  exact h.2.2.2 3 2 ⟨by omega, by omega, Or.inl (by omega)⟩ ⟨_, model137_sat⟩

/-- C7 amended: for code `0x89` the driver's scan first succeeds at
`num_insns = 3, max_cycles = 2`, so it emits a 3-instruction, 2-cycle
primary program; the alternative probe `(4, 1)` is unsatisfiable, so no
alternative program is emitted; and every model at the emitted pair
simulates to `0x89`. -/
theorem code137_emitted_at_3_2 :
    EmitsAt 0x89 3 2 ∧ (¬ SatAt 0x89 4 1) ∧
    (∀ m, SatModel 0x89 3 (some 2) m → simFinal (decode m) = 0x89) := by
  refine ⟨⟨by omega, by omega, ⟨_, model137_sat⟩, ?_⟩, ?_, ?_⟩
  · intro n c hb hS
    obtain ⟨h1, h2, h3⟩ := hb
    rcases h3 with h3 | h3
    · have h12 : n = 1 ∨ n = 2 := by omega
      rcases h12 with h | h
      · subst h
        obtain ⟨m, hm⟩ := hS
        have hbit := computes_one_reach 0x89 (computes_of_sat 0x89 1 _ m hm)
        rw [reach1_miss_137] at hbit
        exact Bool.false_ne_true hbit
      · subst h
        obtain ⟨m, hm⟩ := hS
        have hbit := computes_two_reach 0x89 (computes_of_sat 0x89 2 _ m hm)
        rw [reach2_miss_137] at hbit
        exact Bool.false_ne_true hbit
    · obtain ⟨h4, h5⟩ := h3
      subst h4
      have hc1 : c = 1 := by omega
      subst hc1
      have hbit := satAt_one_reach 0x89 3 (by omega) hS
      rw [reach1_miss_137] at hbit
      exact Bool.false_ne_true hbit
  · intro hS
    have hbit := satAt_one_reach 0x89 4 (by omega) hS
    rw [reach1_miss_137] at hbit
    exact Bool.false_ne_true hbit
  · intro m hm
    rw [simFinal_decode]
    exact hm.2.2.1

/-- C8: the very first scanned pair `(1, 1)` is satisfiable for code 0x00
via the single instruction `set0` and for code 0xFF via `set1`, so the
driver emits for each a primary program of exactly one instruction with
total cycle count 1; the exhibited models decode to exactly those single
instructions, and every model at those pairs has last cycle exactly 1. -/
theorem trivial_codes_one_insn_one_cycle :
    EmitsAt 0 1 1 ∧ EmitsAt 255 1 1 ∧
    SatModel 0 1 (some 1) [⟨0, 0, 0, 1⟩] ∧ decode [⟨0, 0, 0, 1⟩] = [(0, 0, 0)] ∧
    SatModel 255 1 (some 1) [⟨1, 0, 0, 1⟩] ∧ decode [⟨1, 0, 0, 1⟩] = [(1, 0, 0)] ∧
    (∀ m, SatModel 0 1 (some 1) m → lastCycle m = 1) ∧
    (∀ m, SatModel 255 1 (some 1) m → lastCycle m = 1) := by
  have hvac : ∀ X : Nat, ∀ n c, ScanBefore n c 1 1 → ¬ SatAt X n c := by
    intro X n c hb hS
    obtain ⟨h1, h2, h3⟩ := hb
    rcases h3 with h3 | h3
    · omega
    · obtain ⟨h4, h5⟩ := h3
      omega
  have hone : ∀ (X : Nat) (m : List SymInsn), SatModel X 1 (some 1) m →
      lastCycle m = 1 := by
    intro X m hm
    have hlen1 : 1 ≤ m.length := by
      rw [hm.1]
    have hge := lastCycle_ge_one m hlen1 hm.2.1
    have hle : lastCycle m ≤ 1 := by
      have hb := hm.2.2.2
      simp only [boundOk, decide_eq_true_eq] at hb
      omega
    omega
  exact ⟨⟨le_refl 1, le_refl 1, ⟨[⟨0, 0, 0, 1⟩], by decide⟩, hvac 0⟩,
    ⟨le_refl 1, le_refl 1, ⟨[⟨1, 0, 0, 1⟩], by decide⟩, hvac 255⟩,
    by decide, by decide, by decide, by decide, hone 0, hone 255⟩
